import Mathlib

/-!
# Transport dispatch and multipart upload handling of the fasthttp gqlgen server

A shallow embedding of

* `graphql/handler/fastserver.go` (`FastServer.AddTransport`, `FastServer.getTransport`),
* `graphql/handler/fasthttp_transport/options.go` (`Options.Supports`),
* `graphql/handler/fasthttp_transport/http_get.go` (`GET.Supports`, `GET.Do`, `statusFor`),
* `graphql/handler/fasthttp_transport/http_post.go` (`POST.Supports`),
* `graphql/handler/fasthttp_transport/http_form.go` (`MultipartForm.Supports`,
  `maxUploadSize`, `maxMemory`, `MultipartForm.Do`).

Handlers are stateful Go code: they are embedded as functions that thread an explicit
state (the chronological log of observable effects, the stack of deferred calls and the
parameters being assembled) and return it; the response status is read off the log.
Everything the handlers obtain from the outside world (form fields, files, the temporary
directory, the JSON decoder, the executor) is an explicit argument, so that every
definition is executable.  An early `return` is `Except.error`, falling through to the
next statement is `Except.ok`; both carry the state.
-/

namespace Gqlgen

/-! ## Requests -/

/-- The part of `fasthttp.RequestCtx` the transports read: the method, the request
headers, the declared content length (`Request.Header.ContentLength()`, an `int` that is
negative for chunked and identity bodies) and the URI query arguments. -/
structure RequestCtx where
  method : String
  header : List (String × String)
  contentLength : Int
  queryArgs : List (String × String)
  deriving Repr, DecidableEq

/-- The Go expression `string(args.Peek(key))`: the value stored under `key`, and the
empty string when there is none (`Peek` returns `nil`, and `string(nil)` is `""`). -/
def peek (kvs : List (String × String)) (key : String) : String :=
  match kvs.lookup key with
  | some v => v
  | none => ""

/-! ## fastserver.go -/

/-- The `FastServer` struct: the registered transports, in registration order, and the
executor. -/
structure FastServer (T E : Type) where
  transports : List T
  exec : E

/-- `NewFastServer`: a server with an executor and no transport. -/
def NewFastServer {T E : Type} (exec : E) : FastServer T E :=
  { transports := [], exec := exec }

/-- `FastServer.AddTransport`: `s.transports = append(s.transports, transport)`. -/
def FastServer.AddTransport {T E : Type} (s : FastServer T E) (transport : T) :
    FastServer T E :=
  { s with transports := s.transports ++ [transport] }

/-- The loop of `FastServer.getTransport` over the remaining transports. -/
def getTransportLoop {T : Type} (supports : T → RequestCtx → Bool) (r : RequestCtx) :
    List T → Option T
  | [] => none
  | t :: rest => if supports t r then some t else getTransportLoop supports r rest

/-- `FastServer.getTransport`: range over `s.transports`, return the first `t` with
`t.Supports(r)`, and `nil` (here `none`) after the loop. -/
def FastServer.getTransport {T E : Type} (supports : T → RequestCtx → Bool)
    (s : FastServer T E) (r : RequestCtx) : Option T :=
  getTransportLoop supports r s.transports

/-- A server obtained from `NewFastServer` by calling `AddTransport` once for every
element of `ts`, in order. -/
def registerAll {T E : Type} (exec : E) (ts : List T) : FastServer T E :=
  ts.foldl FastServer.AddTransport (NewFastServer exec)

/-! ## The `Supports` predicates -/

/-- The `Options` transport (`type Options struct{}`). -/
structure Options where
  deriving Repr, DecidableEq

/-- The `GET` transport (`type GET struct{}`). -/
structure GET where
  deriving Repr, DecidableEq

/-- The `POST` transport (`type POST struct{}`). -/
structure POST where
  deriving Repr, DecidableEq

/-- The `MultipartForm` transport with its two limits (both `int64`). -/
structure MultipartForm where
  MaxUploadSize : Int
  MaxMemory : Int
  deriving Repr, DecidableEq

/-- `Options.Supports`: the method is `HEAD` or `OPTIONS`. -/
def Options.Supports (_o : Options) (ctx : RequestCtx) : Bool :=
  ctx.method == "HEAD" || ctx.method == "OPTIONS"

/-- `GET.Supports`: no `Upgrade` header, and the method is `GET`. -/
def GET.Supports (_h : GET) (ctx : RequestCtx) : Bool :=
  if peek ctx.header "Upgrade" != "" then false
  else ctx.method == "GET"

/-- `POST.Supports`.  `parseMediaType` stands for the standard library's
`mime.ParseMediaType`: the media type, or `none` when it reports an error. -/
def POST.Supports (parseMediaType : String → Option String) (_h : POST)
    (rctx : RequestCtx) : Bool :=
  if peek rctx.header "Upgrade" != "" then false
  else
    match parseMediaType (peek rctx.header "Content-Type") with
    | none => false
    | some mediaType => rctx.method == "POST" && mediaType == "application/json"

/-- `MultipartForm.Supports`, with `parseMediaType` as in `POST.Supports`. -/
def MultipartForm.Supports (parseMediaType : String → Option String) (_f : MultipartForm)
    (rctx : RequestCtx) : Bool :=
  if peek rctx.header "Upgrade" != "" then false
  else
    match parseMediaType (peek rctx.header "Content-Type") with
    | none => false
    | some mediaType => rctx.method == "POST" && mediaType == "multipart/form-data"

/-- `maxUploadSize`: `32 << 20` when `MaxUploadSize` is zero, else `MaxUploadSize`. -/
def MultipartForm.maxUploadSize (f : MultipartForm) : Int :=
  if f.MaxUploadSize = 0 then 32 * 2 ^ 20 else f.MaxUploadSize

/-- `maxMemory`: `32 << 20` when `MaxMemory` is zero, else `MaxMemory`. -/
def MultipartForm.maxMemory (f : MultipartForm) : Int :=
  if f.MaxMemory = 0 then 32 * 2 ^ 20 else f.MaxMemory

/-! ## Values exchanged with the executor and the response writer -/

/-- An entry of a `gqlerror.List` as it appears in the response envelope: the message
and the optional `extensions.code`. -/
structure GqlError where
  message : String
  code : Option String
  deriving Repr, DecidableEq

/-- The response envelope `graphql.Response`: `data` (absent is `null`) and `errors`. -/
structure Response where
  errors : List GqlError
  data : Option String
  deriving Repr, DecidableEq

/-- A decoded JSON object (`map[string]interface{}`), kept as the list of its members
with their values as text. -/
structure JsonObject where
  members : List (String × String)
  deriving Repr, DecidableEq

/-- The `File` of a `graphql.Upload` built by `MultipartForm.Do`: the opened form file
`fl` itself, a fresh `bytesReader` over the bytes read from it, or the handle that the
`index`-th `os.Open(tmpName)` of a key returned. -/
inductive UploadFile
  | formFile (key : String)
  | bytesReader (fileBytes : List Nat)
  | tmpHandle (tmpName : String) (index : Nat)
  deriving Repr, DecidableEq

/-- The struct `graphql.Upload`. -/
structure Upload where
  File : UploadFile
  Size : Int
  Filename : String
  ContentType : String
  deriving Repr, DecidableEq

/-- The `graphql.RawParams` fields the transports fill, and the uploads attached to it
so far by `AddUpload` (upload, key, path).  `ReadTime` is wall-clock time and is left
out. -/
structure RawParams where
  Query : String
  OperationName : String
  Variables : Option JsonObject
  Extensions : Option JsonObject
  uploads : List (Upload × String × String)
  deriving Repr, DecidableEq

/-- An `ast.OperationDefinition`: its kind (`ast.Operation` is a string type) and name. -/
structure OperationDefinition where
  Operation : String
  Name : String
  deriving Repr, DecidableEq

/-- The constant `ast.Query`. -/
def ast.Query : String := "query"

/-- The fields of `graphql.OperationContext` that `GET.Do` reads: `rc.OperationName` and
`rc.Doc.Operations`. -/
structure OperationContext where
  OperationName : String
  Operations : List OperationDefinition
  deriving Repr, DecidableEq

/-- The parser library's `OperationList.ForName`: the only operation when the name is
empty and there is exactly one, else the first operation with that name, else `nil`. -/
def OperationList.ForName (l : List OperationDefinition) (name : String) :
    Option OperationDefinition :=
  match name == "", l with
  | true, [op] => some op
  | _, _ => l.find? (fun it => it.Name == name)

/-- The `graphql.GraphExecutor` methods the transports call.  `CreateOperationContext`
returns the context and an error list that is `nil` (here `none`) on success;
`DispatchOperation` stands for the call together with `responses(ctx)`. -/
structure GraphExecutor where
  CreateOperationContext : RawParams → OperationContext × Option (List GqlError)
  DispatchError : OperationContext → List GqlError → Response
  DispatchOperation : OperationContext → Response

/-- Modelled from the spec: the package `errcode` is not among the sources.  Its
`ErrorKind` is an integer type whose values separate protocol-kind errors from all
others; `KindProtocol` is taken as the zero value and `KindUser` as the one after it. -/
abbrev ErrorKind := Int

/-- The constant `errcode.KindProtocol`. -/
def errcode.KindProtocol : ErrorKind := 0

/-- The constant `errcode.KindUser`. -/
def errcode.KindUser : ErrorKind := 1

/-- `statusFor`: 422 for `KindProtocol`, 200 otherwise.  `getErrorKind` stands for
`errcode.GetErrorKind`. -/
def statusFor (getErrorKind : List GqlError → ErrorKind) (errs : List GqlError) : Nat :=
  if getErrorKind errs = errcode.KindProtocol then 422 else 200

/-! ## The effect log -/

/-- An observable effect of a handler.  Calls that can fail carry their outcome. -/
inductive Event
  | setHeader (key value : String)
  | setStatusCode (code : Nat)
  | write (resp : Response)
  | formValue (name : String)
  | jsonDecode (field : String) (ok : Bool)
  | formFile (key : String) (ok : Bool)
  | fhOpen (key : String) (ok : Bool)
  | readAll (key : String) (ok : Bool)
  | tempFile (key : String) (name : Option String)
  | copy (tmpName : String) (ok : Bool)
  | closeTmp (tmpName : String) (ok : Bool)
  | osOpen (tmpName : String) (index : Nat) (ok : Bool)
  | addUpload (upload : Upload) (key path : String) (ok : Bool)
  | createOperationContext (ok : Bool)
  | dispatchError
  | dispatchOperation
  | remove (tmpName : String)
  | closeFile (file : UploadFile)
  | nilDereference
  deriving Repr, DecidableEq

/-- A call registered with `defer`. -/
inductive Deferred
  | closeFile (file : UploadFile)
  | remove (tmpName : String)
  deriving Repr, DecidableEq

/-- The state a handler threads: the effects so far in chronological order, the pending
deferred calls (most recent first) and the parameters being assembled. -/
structure St where
  events : List Event
  defers : List Deferred
  params : RawParams
  deriving Repr, DecidableEq

/-- Record one effect. -/
def St.log (st : St) (e : Event) : St :=
  { st with events := st.events ++ [e] }

/-- Register a deferred call (`defer ...`). -/
def St.defer (st : St) (d : Deferred) : St :=
  { st with defers := d :: st.defers }

/-- The effect of running one deferred call. -/
def Deferred.event : Deferred → Event
  | .closeFile file => .closeFile file
  | .remove tmpName => .remove tmpName

/-- What happens when the function returns: the deferred calls run, last registered
first. -/
def St.runDefers (st : St) : St :=
  { st with events := st.events ++ st.defers.map Deferred.event, defers := [] }

/-- The status field of the response after a log: the code of the last
`SetStatusCode`, and 0 (the zero value) when there was none. -/
def rawStatusCode (events : List Event) : Nat :=
  events.foldl (fun cur e => match e with
    | .setStatusCode c => c
    | _ => cur) 0

/-- The getter `Response.StatusCode()` of fasthttp: 200 when the status field is still
zero, else the field. -/
def statusCode (events : List Event) : Nat :=
  if rawStatusCode events = 0 then 200 else rawStatusCode events

/-- The call `ctx.SetStatusCode(code)`. -/
def SetStatusCode (st : St) (code : Nat) : St :=
  st.log (.setStatusCode code)

/-- Modelled from the spec: the helper `writeJson` of the transport package is not among
the sources; by section 6 it serialises the response envelope and writes it as the
body (the handlers set the status themselves, before calling it). -/
def writeJson (st : St) (resp : Response) : St :=
  st.log (.write resp)

/-- Modelled from the spec: the helper `writeJsonError` is not among the sources; it
writes the envelope with the single error `msg` and `data` null, as in
`\x7b"errors":[\x7b"message":msg\x7d],"data":null\x7d`. -/
def writeJsonError (st : St) (msg : String) : St :=
  writeJson st { errors := [{ message := msg, code := none }], data := none }

/-- Modelled from the spec: the helper `writeJsonErrorf` is not among the sources; it is
`writeJsonError` of the formatted message, given here with the format already applied
(every format in these files is a text with one `%s`). -/
def writeJsonErrorf (st : St) (formatted : String) : St :=
  writeJsonError st formatted

/-- Modelled from the spec: the helper `writeJsonGraphqlError` is not among the sources;
it writes the envelope whose only error is the given one. -/
def writeJsonGraphqlError (st : St) (err : GqlError) : St :=
  writeJson st { errors := [err], data := none }

/-! ## http_form.go: `MultipartForm.Do` -/

/-- The fields of `multipart.FileHeader` that `Do` reads. -/
structure FileHeader where
  Filename : String
  Size : Int
  Header : List (String × String)
  deriving Repr, DecidableEq

/-- What `MultipartForm.Do` obtains from outside the function, one field per call.
`decodeParams` is `jsonDecode` into `&params` and `unmarshalMap` is `json.Unmarshal`
into `map[string][]string`, whose result is given as the list of its entries in the
order in which this run's `range` visits them (Go leaves that order unspecified).
`ReadAll`, `TempFile` are per key, `Copy`, `Close` per temporary file and `osOpen` per
temporary file and path index; `none`, `false` and `Except.error` are the error
returns.  `AddUpload` is `RawParams.AddUpload`, `getErrorKind` is
`errcode.GetErrorKind`. -/
structure World where
  FormValue : String → String
  decodeParams : String → Option RawParams
  unmarshalMap : String → Option (List (String × List String))
  FormFile : String → Option FileHeader
  Open : FileHeader → Bool
  ReadAll : String → Option (List Nat)
  TempFile : String → Option String
  Copy : String → Bool
  Close : String → Bool
  osOpen : String → Nat → Bool
  AddUpload : RawParams → Upload → String → String → Except GqlError RawParams
  getErrorKind : List GqlError → ErrorKind

/-- The zero value of `graphql.RawParams` (`var params graphql.RawParams`). -/
def RawParams.zero : RawParams :=
  { Query := "", OperationName := "", Variables := none, Extensions := none, uploads := [] }

/-- The state on entry to a handler. -/
def St.init : St :=
  { events := [], defers := [], params := RawParams.zero }

/-- The `graphql.Upload` literal of `Do`: the given `File` with the size, file name and
`Content-Type` header of the form file. -/
def mkUpload (file : UploadFile) (fh : FileHeader) : Upload :=
  { File := file, Size := fh.Size, Filename := fh.Filename,
    ContentType := peek fh.Header "Content-Type" }

/-- One `params.AddUpload(upload, key, path)` with its error branch (lines 126-130,
147-151, 194-198): on error set 422, write the error, return. -/
def addUploadStep (w : World) (upload : Upload) (key path : String) (st : St) :
    Except St St :=
  match w.AddUpload st.params upload key path with
  | .error err =>
    .error (writeJsonGraphqlError
      (SetStatusCode (st.log (.addUpload upload key path false)) 422) err)
  | .ok params =>
    .ok ({ st with params := params }.log (.addUpload upload key path true))

/-- The loop of lines 139-152: one fresh `bytesReader` over `fileBytes` per path. -/
def attachBuffered (w : World) (fh : FileHeader) (key : String) (fileBytes : List Nat) :
    List String → St → Except St St
  | [], st => .ok st
  | path :: rest, st =>
    match addUploadStep w (mkUpload (.bytesReader fileBytes) fh) key path st with
    | .error st1 => .error st1
    | .ok st1 => attachBuffered w fh key fileBytes rest st1

/-- The loop of lines 179-199, from path index `i`: reopen the temporary file, defer
the close of the new handle, attach it. -/
def attachSpooled (w : World) (fh : FileHeader) (key tmpName : String) :
    Nat → List String → St → Except St St
  | _, [], st => .ok st
  | i, path :: rest, st =>
    if w.osOpen tmpName i then
      let st1 := (st.log (.osOpen tmpName i true)).defer (.closeFile (.tmpHandle tmpName i))
      match addUploadStep w (mkUpload (.tmpHandle tmpName i) fh) key path st1 with
      | .error st2 => .error st2
      | .ok st2 => attachSpooled w fh key tmpName (i + 1) rest st2
    else
      .error (writeJsonErrorf (SetStatusCode (st.log (.osOpen tmpName i false)) 422)
        ("failed to open temp file for key " ++ key))

/-- The `else` branch of lines 153-200: spool the form file to a temporary file whose
removal is deferred, then attach one handle per path. -/
def spoolKey (w : World) (fh : FileHeader) (key : String) (paths : List String) (st : St) :
    Except St St :=
  match w.TempFile key with
  | none =>
    .error (writeJsonErrorf (SetStatusCode (st.log (.tempFile key none)) 422)
      ("failed to create temp file for key " ++ key))
  | some tmpName =>
    let st1 := (st.log (.tempFile key (some tmpName))).defer (.remove tmpName)
    if w.Copy tmpName then
      let st2 := st1.log (.copy tmpName true)
      if w.Close tmpName then
        attachSpooled w fh key tmpName 0 paths (st2.log (.closeTmp tmpName true))
      else
        .error (writeJsonErrorf (SetStatusCode (st2.log (.closeTmp tmpName false)) 422)
          ("failed to close temp file for key " ++ key))
    else
      let st2 := SetStatusCode (st1.log (.copy tmpName false)) 422
      if w.Close tmpName then
        .error (writeJsonErrorf (st2.log (.closeTmp tmpName true))
          ("failed to copy to temp file for key " ++ key))
      else
        .error (writeJsonErrorf (st2.log (.closeTmp tmpName false))
          ("failed to copy to temp file and close temp file for key " ++ key))

/-- The body of the `for key, paths := range uploadsMap` loop (lines 98-201).
`Except.error` is a `return` out of `Do`, `Except.ok` falls through to the next key. -/
def processKey (f : MultipartForm) (w : World) (rctx : RequestCtx) (key : String)
    (paths : List String) (st : St) : Except St St :=
  if paths.length = 0 then
    .error (writeJsonErrorf (SetStatusCode st 422)
      ("invalid empty operations paths list for key " ++ key))
  else
    match w.FormFile key with
    | none =>
      .error (writeJsonErrorf (SetStatusCode (st.log (.formFile key false)) 422)
        ("failed to get key " ++ key ++ " from form"))
    | some fh =>
      let st1 := st.log (.formFile key true)
      if w.Open fh then
        let st2 := (st1.log (.fhOpen key true)).defer (.closeFile (.formFile key))
        match paths with
        | [path] => addUploadStep w (mkUpload (.formFile key) fh) key path st2
        | _ =>
          if rctx.contentLength < f.maxMemory then
            match w.ReadAll key with
            | none =>
              .error (writeJsonErrorf (SetStatusCode (st2.log (.readAll key false)) 422)
                ("failed to read file for key " ++ key))
            | some fileBytes =>
              attachBuffered w fh key fileBytes paths (st2.log (.readAll key true))
          else spoolKey w fh key paths st2
      else
        .error (writeJsonErrorf (SetStatusCode (st1.log (.fhOpen key false)) 422)
          ("failed to open file " ++ fh.Filename))

/-- The `range` loop over the entries of `uploadsMap`, in this run's visiting order. -/
def rangeUploads (f : MultipartForm) (w : World) (rctx : RequestCtx) :
    List (String × List String) → St → Except St St
  | [], st => .ok st
  | (key, paths) :: rest, st =>
    match processKey f w rctx key paths st with
    | .error st1 => .error st1
    | .ok st1 => rangeUploads f w rctx rest st1

/-- Lines 209-217 of `Do` (and the same lines of `POST.Do`): create the operation
context; on error dispatch the error, set its status and write it; else dispatch the
operation and write its response. -/
def MultipartForm.execute (w : World) (exec : GraphExecutor) (st : St) : St :=
  match exec.CreateOperationContext st.params with
  | (rc, some gerr) =>
    let st1 := (st.log (.createOperationContext false)).log .dispatchError
    writeJson (SetStatusCode st1 (statusFor w.getErrorKind gerr)) (exec.DispatchError rc gerr)
  | (rc, none) =>
    let st1 := (st.log (.createOperationContext true)).log .dispatchOperation
    writeJson st1 (exec.DispatchOperation rc)

/-- The statements of `MultipartForm.Do` up to the function's `return`s; both outcomes
carry the state at the point of return (`Except.error`: an early `return` before the
executor is reached). -/
def MultipartForm.body (f : MultipartForm) (w : World) (exec : GraphExecutor)
    (rctx : RequestCtx) : Except St St :=
  let st := St.init.log (.setHeader "Content-Type" "application/json")
  if rctx.contentLength > f.maxUploadSize then
    .error (writeJsonError st "failed to parse multipart form, request body too large")
  else
    let st1 := st.log (.formValue "operations")
    match w.decodeParams (w.FormValue "operations") with
    | none =>
      .error (writeJsonError (SetStatusCode (st1.log (.jsonDecode "operations" false)) 422)
        "operations form field could not be decoded")
    | some params =>
      let st2 := ({ st1 with params := params }.log (.jsonDecode "operations" true)).log
        (.formValue "map")
      match w.unmarshalMap (w.FormValue "map") with
      | none =>
        .error (writeJsonError (SetStatusCode (st2.log (.jsonDecode "map" false)) 422)
          "map form field could not be decoded")
      | some uploadsMap =>
        match rangeUploads f w rctx uploadsMap (st2.log (.jsonDecode "map" true)) with
        | .error st3 => .error st3
        | .ok st3 => .ok (MultipartForm.execute w exec st3)

/-- `MultipartForm.Do`: the body, then the deferred calls. -/
def MultipartForm.Do (f : MultipartForm) (w : World) (exec : GraphExecutor)
    (rctx : RequestCtx) : St :=
  match MultipartForm.body f w exec rctx with
  | .error st => st.runDefers
  | .ok st => st.runDefers

/-! ## http_get.go: `GET.Do` -/

/-- Lines 41-47 of `GET.Do`: a non-empty `variables` query argument is decoded into
`raw.Variables`; failure sets 400, writes the error and returns.  `decodeObject` is
`jsonDecode` into a `map[string]interface{}`. -/
def GET.decodeVariables (decodeObject : String → Option JsonObject) (ctx : RequestCtx)
    (st : St) : Except St St :=
  let variablesArg := peek ctx.queryArgs "variables"
  if variablesArg != "" then
    match decodeObject variablesArg with
    | none =>
      .error (writeJsonError (SetStatusCode (st.log (.jsonDecode "variables" false)) 400)
        "variables could not be decoded")
    | some v =>
      .ok ({ st with params := { st.params with Variables := some v } }.log
        (.jsonDecode "variables" true))
  else .ok st

/-- Lines 49-55 of `GET.Do`: the same for the `extensions` query argument. -/
def GET.decodeExtensions (decodeObject : String → Option JsonObject) (ctx : RequestCtx)
    (st : St) : Except St St :=
  let extensionsArg := peek ctx.queryArgs "extensions"
  if extensionsArg != "" then
    match decodeObject extensionsArg with
    | none =>
      .error (writeJsonError (SetStatusCode (st.log (.jsonDecode "extensions" false)) 400)
        "extensions could not be decoded")
    | some v =>
      .ok ({ st with params := { st.params with Extensions := some v } }.log
        (.jsonDecode "extensions" true))
  else .ok st

/-- Lines 59-74 of `GET.Do`: create the operation context; on error set its status,
dispatch the error and write it; else look the operation up by name (a `nil` result is
dereferenced, which panics), refuse anything but a query with 406, and dispatch. -/
def GET.execute (getErrorKind : List GqlError → ErrorKind) (exec : GraphExecutor)
    (st : St) : St :=
  match exec.CreateOperationContext st.params with
  | (rc, some err) =>
    let st1 := SetStatusCode (st.log (.createOperationContext false))
      (statusFor getErrorKind err)
    writeJson (st1.log .dispatchError) (exec.DispatchError rc err)
  | (rc, none) =>
    let st1 := st.log (.createOperationContext true)
    match OperationList.ForName rc.Operations rc.OperationName with
    | none => st1.log .nilDereference
    | some op =>
      if op.Operation != ast.Query then
        writeJsonError (SetStatusCode st1 406) "GET requests only allow query operations"
      else
        writeJson (st1.log .dispatchOperation) (exec.DispatchOperation rc)

/-- `GET.Do`: set the content type, read `query` and `operationName`, decode
`variables` and `extensions`, and hand the parameters to the executor. -/
def GET.Do (_h : GET) (decodeObject : String → Option JsonObject)
    (getErrorKind : List GqlError → ErrorKind) (exec : GraphExecutor) (ctx : RequestCtx) :
    St :=
  let st := St.init.log (.setHeader "Content-Type" "application/json")
  let raw : RawParams :=
    { Query := peek ctx.queryArgs "query", OperationName := peek ctx.queryArgs "operationName",
      Variables := none, Extensions := none, uploads := [] }
  match GET.decodeVariables decodeObject ctx { st with params := raw } with
  | .error st1 => st1
  | .ok st1 =>
    match GET.decodeExtensions decodeObject ctx st1 with
    | .error st2 => st2
    | .ok st2 => GET.execute getErrorKind exec st2

/-! ## Concrete surroundings used to run the handlers -/

/-- A form file header with a content type. -/
def sampleHeader (name : String) : FileHeader :=
  { Filename := name, Size := 12, Header := [("Content-Type", "text/plain")] }

/-- Parameters as a successful decode of an `operations` field would give them. -/
def sampleParams : RawParams :=
  { Query := "mutation", OperationName := "", Variables := some { members := [] },
    Extensions := none, uploads := [] }

/-- A world in which every call succeeds: every key has a form file named after it,
the temporary file of key `k` is `gqlgen-k`, and `AddUpload` records the binding. -/
def okWorld (uploadsMap : List (String × List String)) : World :=
  { FormValue := fun name => name
    decodeParams := fun _ => some sampleParams
    unmarshalMap := fun _ => some uploadsMap
    FormFile := fun key => some (sampleHeader (key ++ ".txt"))
    Open := fun _ => true
    ReadAll := fun _ => some [116, 101, 115, 116]
    TempFile := fun key => some ("gqlgen-" ++ key)
    Copy := fun _ => true
    Close := fun _ => true
    osOpen := fun _ _ => true
    AddUpload := fun params upload key path =>
      .ok { params with uploads := params.uploads ++ [(upload, key, path)] }
    getErrorKind := fun _ => errcode.KindUser }

/-- An executor that accepts every request as the single query operation. -/
def okExecutor : GraphExecutor :=
  { CreateOperationContext := fun params =>
      ({ OperationName := params.OperationName,
         Operations := [{ Operation := "query", Name := params.OperationName }] }, none)
    DispatchError := fun _ errs => { errors := errs, data := none }
    DispatchOperation := fun _ => { errors := [], data := some "ok" } }

/-- A multipart `POST` request with the given declared content length. -/
def formRequest (contentLength : Int) : RequestCtx :=
  { method := "POST", header := [("Content-Type", "multipart/form-data; boundary=x")],
    contentLength := contentLength, queryArgs := [] }

/-! ## Classifying effects -/

/-- The effect is a decode or attachment call that returned an error: an undecodable
form field, a missing or unopenable form file, a failed read, temporary-file creation,
copy, close or reopen, or a failed `AddUpload`. -/
def Event.failed : Event → Bool
  | .jsonDecode _ ok => !ok
  | .formFile _ ok => !ok
  | .fhOpen _ ok => !ok
  | .readAll _ ok => !ok
  | .tempFile _ name => name.isNone
  | .copy _ ok => !ok
  | .closeTmp _ ok => !ok
  | .osOpen _ _ ok => !ok
  | .addUpload _ _ _ ok => !ok
  | _ => false

/-- The effect is a call of a `graphql.GraphExecutor` method. -/
def Event.isExecutor : Event → Bool
  | .createOperationContext _ => true
  | .dispatchError => true
  | .dispatchOperation => true
  | _ => false

/-- The effect belongs to the deferred calls: a `Close` or an `os.Remove`. -/
def Event.isCleanup : Event → Bool
  | .closeFile _ => true
  | .remove _ => true
  | _ => false

/-- No call in the log has failed. -/
def noFailure (l : List Event) : Bool :=
  l.all (fun e => !e.failed)

/-- No call in the log is a call of the executor. -/
def noExecutor (l : List Event) : Bool :=
  l.all (fun e => !e.isExecutor)

/-- No effect in the log is a deferred call. -/
def noCleanup (l : List Event) : Bool :=
  l.all (fun e => !e.isCleanup)

/-- A state in which no call has failed and the executor has not been called. -/
def Clean (st : St) : Prop :=
  noFailure st.events = true ∧ noExecutor st.events = true

/-- A state at an early `return` of the upload phase: the status last set is 422 and
the executor has not been called. -/
def Aborted (st : St) : Prop :=
  rawStatusCode st.events = 422 ∧ noExecutor st.events = true

/-- What a step of the upload phase yields when started in a clean state: a clean state
when it falls through, an aborted one when it returns. -/
def StepOutcome : Except St St → Prop
  | .ok st => Clean st
  | .error st => Aborted st

/-- The state of `Do` when the `range` loop starts: the content type is set, both form
fields have been read and decoded, nothing is deferred, and `params` holds the decoded
operations. -/
def loopStart (params : RawParams) : St :=
  { events := [.setHeader "Content-Type" "application/json", .formValue "operations",
      .jsonDecode "operations" true, .formValue "map", .jsonDecode "map" true],
    defers := [], params := params }

/-- The state with which a step ends, whether it returns or falls through. -/
def finalState : Except St St → St
  | .ok st => st
  | .error st => st

/-- The effect is a `FormFile` lookup of the key `K`. -/
def Event.isFormFileOf (K : String) : Event → Bool
  | .formFile k _ => k == K
  | _ => false

/-- The log holds no `FormFile` lookup of the key `K`. -/
def noFormFileOf (K : String) (l : List Event) : Bool :=
  l.all (fun e => !e.isFormFileOf K)

/-- The response body that `writeJsonError` writes for a message. -/
def errorResponse (msg : String) : Response :=
  { errors := [{ message := msg, code := none }], data := none }

/-- A world like `okWorld`, except that the form holds no file for the key `missing`. -/
def missingFileWorld (missing : String) (uploadsMap : List (String × List String)) :
    World :=
  { okWorld uploadsMap with
    FormFile := fun key =>
      if key = missing then none else some (sampleHeader (key ++ ".txt")) }

/-- A run of `Do` on a map that `range` visits as `a` (one path, no form file) and then
`K` (empty path list), with a content length within both limits. -/
def emptyKeyAfterMissingFile : St :=
  MultipartForm.Do { MaxUploadSize := 0, MaxMemory := 0 }
    (missingFileWorld "a" [("a", ["variables.file"]), ("K", [])]) okExecutor
    (formRequest 100)

/-- The response bodies written in a log, in order. -/
def writes (l : List Event) : List Response :=
  l.filterMap (fun e => match e with
    | .write resp => some resp
    | _ => none)

/-- The parameters `GET.Do` has assembled when it reaches the executor: `query` and
`operationName` verbatim, and `variables` and `extensions` decoded when their query
argument is not empty (left `nil` when it is). -/
def GET.rawParams (decodeObject : String → Option JsonObject) (ctx : RequestCtx) :
    RawParams :=
  { Query := peek ctx.queryArgs "query"
    OperationName := peek ctx.queryArgs "operationName"
    Variables :=
      if peek ctx.queryArgs "variables" = "" then none
      else decodeObject (peek ctx.queryArgs "variables")
    Extensions :=
      if peek ctx.queryArgs "extensions" = "" then none
      else decodeObject (peek ctx.queryArgs "extensions")
    uploads := [] }

/-- A decoder that rejects the text `notjson` and accepts everything else as the empty
object. -/
def sampleDecodeObject (text : String) : Option JsonObject :=
  if text = "notjson" then none else some { members := [] }

/-- An executor that resolves every request to one operation of the given kind, named
after the request's operation name. -/
def kindExecutor (kind : String) : GraphExecutor :=
  { CreateOperationContext := fun params =>
      ({ OperationName := params.OperationName,
         Operations := [{ Operation := kind, Name := params.OperationName }] }, none)
    DispatchError := fun _ errs => { errors := errs, data := none }
    DispatchOperation := fun _ => { errors := [], data := some "ok" } }

/-- A `GET` request with the given query arguments. -/
def getRequest (queryArgs : List (String × String)) : RequestCtx :=
  { method := "GET", header := [], contentLength := 0, queryArgs := queryArgs }

/-- A run of `Do` with the default limits on a request that declares one byte more than
the default upload ceiling of 32 MiB. -/
def oversizedRun : St :=
  MultipartForm.Do { MaxUploadSize := 0, MaxMemory := 0 }
    (okWorld [("0", ["variables.file"])]) okExecutor (formRequest 33554433)

/-- The effects of `GET.Do` before it reaches the executor, when the decodes it attempts
succeed: the content type, and one decode per non-empty argument. -/
def GET.decodeEvents (ctx : RequestCtx) : List Event :=
  [.setHeader "Content-Type" "application/json"] ++
    (if peek ctx.queryArgs "variables" = "" then [] else [.jsonDecode "variables" true]) ++
    (if peek ctx.queryArgs "extensions" = "" then [] else [.jsonDecode "extensions" true])

/-- The name of the temporary file an effect created, if it is a successful
`ioutil.TempFile`. -/
def Event.createdName : Event → Option String
  | .tempFile _ name => name
  | _ => none

/-- The name an effect removed, if it is an `os.Remove`. -/
def Event.removedName : Event → Option String
  | .remove tmpName => some tmpName
  | _ => none

/-- The name a deferred call will remove, if it is a deferred `os.Remove`. -/
def Deferred.removedName : Deferred → Option String
  | .remove tmpName => some tmpName
  | _ => none

/-- The temporary files created in a log, in order of creation. -/
def createdTempFiles (l : List Event) : List String :=
  l.filterMap Event.createdName

/-- The names removed in a log, in order of removal. -/
def removedFiles (l : List Event) : List String :=
  l.filterMap Event.removedName

/-- The names whose removal is pending on the defer stack, next to run first. -/
def pendingRemovals (ds : List Deferred) : List String :=
  ds.filterMap Deferred.removedName

/-- The invariant of `Do` on temporary files: the removals pending on the defer stack
are exactly the temporary files created so far (latest first), and no deferred call has
run yet. -/
def CleanupInv (st : St) : Prop :=
  pendingRemovals st.defers = (createdTempFiles st.events).reverse ∧
    noCleanup st.events = true

/-- A memory limit of 10 bytes: a request that declares 100 bytes is spooled. -/
def smallMemoryForm : MultipartForm :=
  { MaxUploadSize := 0, MaxMemory := 10 }

/-! ## The storage strategy, as the specification words it -/

/-- How the bytes of a form file reach its destination paths: the opened file itself,
one in-memory buffer, or one temporary file. -/
inductive Storage
  | direct
  | memory
  | spool
  deriving Repr, DecidableEq

/-- The strategy for a key, from the number of its destination paths and the declared
content length against the memory threshold: one path is attached directly; several
paths are buffered below the threshold and spooled at or above it. -/
def storageFor (pathCount : Nat) (contentLength maxMemory : Int) : Storage :=
  if pathCount = 1 then .direct
  else if contentLength < maxMemory then .memory
  else .spool

/-- The effects of attaching a spooled file to its paths, from path index `i`: per path
one reopen of the temporary file and one `AddUpload` whose upload is the new handle with
the size, file name and `Content-Type` header of the form file. -/
def spoolAttachTrace (fh : FileHeader) (key tmpName : String) : Nat → List String → List Event
  | _, [] => []
  | i, path :: rest =>
    [.osOpen tmpName i true,
      .addUpload
        { File := .tmpHandle tmpName i, Size := fh.Size, Filename := fh.Filename,
          ContentType := peek fh.Header "Content-Type" } key path true] ++
      spoolAttachTrace fh key tmpName (i + 1) rest

/-- The effects a key has when all its calls succeed: the form file is looked up and
opened; then, by `storageFor`, either the opened file is attached to the single path, or
the file is read once and a reader over those bytes is attached to every path, or one
temporary file is created, filled and closed and a fresh handle on it is attached to
every path.  Every `AddUpload` carries the size, file name and content type of the form
file, written out here field by field. -/
def keyTrace (f : MultipartForm) (w : World) (rctx : RequestCtx) (key : String)
    (paths : List String) : List Event :=
  match w.FormFile key with
  | none => []
  | some fh =>
    [.formFile key true, .fhOpen key true] ++
      match storageFor paths.length rctx.contentLength f.maxMemory with
      | .direct =>
        paths.map (fun path =>
          .addUpload
            { File := .formFile key, Size := fh.Size, Filename := fh.Filename,
              ContentType := peek fh.Header "Content-Type" } key path true)
      | .memory =>
        match w.ReadAll key with
        | none => []
        | some fileBytes =>
          .readAll key true ::
            paths.map (fun path =>
              .addUpload
                { File := .bytesReader fileBytes, Size := fh.Size, Filename := fh.Filename,
                  ContentType := peek fh.Header "Content-Type" } key path true)
      | .spool =>
        match w.TempFile key with
        | none => []
        | some tmpName =>
          [.tempFile key (some tmpName), .copy tmpName true, .closeTmp tmpName true] ++
            spoolAttachTrace fh key tmpName 0 paths

/-- The uploads that the successful `AddUpload` calls of a log attached, in order, each
with its key and path. -/
def attachments (l : List Event) : List (Upload × String × String) :=
  l.filterMap (fun e => match e with
    | .addUpload upload key path true => some (upload, key, path)
    | _ => none)

/-- The effects of the whole `range` loop when every key succeeds. -/
def uploadTrace (f : MultipartForm) (w : World) (rctx : RequestCtx) :
    List (String × List String) → List Event
  | [] => []
  | (key, paths) :: rest => keyTrace f w rctx key paths ++ uploadTrace f w rctx rest

/-- The effect belongs to the upload phase: a form-file lookup or open, a read, a
temporary-file call or an `AddUpload`. -/
def Event.isUpload : Event → Bool
  | .formFile _ _ => true
  | .fhOpen _ _ => true
  | .readAll _ _ => true
  | .tempFile _ _ => true
  | .copy _ _ => true
  | .closeTmp _ _ => true
  | .osOpen _ _ _ => true
  | .addUpload _ _ _ _ => true
  | _ => false

/-- A kind function to run `statusFor` with: a list is of protocol kind when one of its
errors carries the code `GRAPHQL_PARSE_FAILED` or `GRAPHQL_VALIDATION_FAILED` (the codes
of the two 422 cases of `http_get_test.go`), and of user kind otherwise. -/
def sampleGetErrorKind (errs : List GqlError) : ErrorKind :=
  if errs.any (fun e =>
      e.code == some "GRAPHQL_PARSE_FAILED" || e.code == some "GRAPHQL_VALIDATION_FAILED")
  then errcode.KindProtocol
  else errcode.KindUser

/-- The world `w`, except that the decoded map is `m`. -/
def World.withMap (w : World) (m : List (String × List String)) : World :=
  { w with unmarshalMap := fun _ => some m }

/-- What a step of the upload phase writes: nothing when it falls through, exactly one
response when it returns. -/
def WritesOutcome (st : St) : Except St St → Prop
  | .ok st1 => writes st1.events = writes st.events
  | .error st1 => ∃ resp, writes st1.events = writes st.events ++ [resp]

/-! ## Transport selection -/

theorem foldl_AddTransport_transports {T E : Type} (ts : List T) (s : FastServer T E) :
    (ts.foldl FastServer.AddTransport s).transports = s.transports ++ ts := by
  induction ts generalizing s with
  | nil => simp
  | cons t rest ih => simp [List.foldl_cons, ih, FastServer.AddTransport]

theorem registerAll_transports {T E : Type} (exec : E) (ts : List T) :
    (registerAll exec ts : FastServer T E).transports = ts := by
  simp [registerAll, foldl_AddTransport_transports, NewFastServer]

theorem getTransportLoop_eq_none {T : Type} (supports : T → RequestCtx → Bool)
    (r : RequestCtx) (ts : List T) :
    getTransportLoop supports r ts = none ↔ ∀ t ∈ ts, supports t r = false := by
  induction ts with
  | nil => simp [getTransportLoop]
  | cons t rest ih =>
    by_cases h : supports t r = true
    · simp [getTransportLoop, h]
    · simp [getTransportLoop, h, ih]

theorem getTransportLoop_eq_some {T : Type} (supports : T → RequestCtx → Bool)
    (r : RequestCtx) (ts : List T) (t : T) :
    getTransportLoop supports r ts = some t ↔
      ∃ i : Nat, ts[i]? = some t ∧ supports t r = true ∧
        ∀ j : Nat, j < i → ∀ u, ts[j]? = some u → supports u r = false := by
  induction ts with
  | nil => simp [getTransportLoop]
  | cons a rest ih =>
    by_cases h : supports a r = true
    · have hloop : getTransportLoop supports r (a :: rest) = some a := by
        simp [getTransportLoop, h]
      rw [hloop]
      constructor
      · intro hat
        have hat2 : a = t := by simpa using hat
        subst hat2
        exact ⟨0, by simp, h, by intro j hj; omega⟩
      · rintro ⟨i, hi, _, hlt⟩
        cases i with
        | zero =>
          have : a = t := by simpa using hi
          rw [this]
        | succ n =>
          have := hlt 0 (by omega) a (by simp)
          simp [h] at this
    · have hloop : getTransportLoop supports r (a :: rest) = getTransportLoop supports r rest := by
        simp [getTransportLoop, h]
      rw [hloop, ih]
      constructor
      · rintro ⟨i, hi, hs, hlt⟩
        refine ⟨i + 1, by simpa using hi, hs, ?_⟩
        intro j hj u hu
        cases j with
        | zero =>
          have : a = u := by simpa using hu
          rw [← this]
          simpa using h
        | succ n => exact hlt n (by omega) u (by simpa using hu)
      · rintro ⟨i, hi, hs, hlt⟩
        cases i with
        | zero =>
          have : a = t := by simpa using hi
          rw [this] at h
          exact absurd hs h
        | succ n =>
          refine ⟨n, by simpa using hi, hs, ?_⟩
          intro j hj u hu
          exact hlt (j + 1) (by omega) u (by simpa using hu)

/-- C1: on a server whose transports were registered by successive `AddTransport` calls
(the list `ts`, in order), `getTransport` returns `t` exactly when `t` sits at the lowest
index whose `Supports` accepts the request (every transport at a smaller index rejects
it), and returns nil exactly when no registered transport accepts the request. -/
theorem getTransport_first_supporting {T E : Type} (supports : T → RequestCtx → Bool)
    (exec : E) (ts : List T) (r : RequestCtx) :
    (∀ t, (registerAll exec ts).getTransport supports r = some t ↔
      ∃ i : Nat, ts[i]? = some t ∧ supports t r = true ∧
        ∀ j : Nat, j < i → ∀ u, ts[j]? = some u → supports u r = false) ∧
    ((registerAll exec ts).getTransport supports r = none ↔
      ∀ t ∈ ts, supports t r = false) := by
  refine ⟨fun t => ?_, ?_⟩
  · rw [FastServer.getTransport, registerAll_transports]
    exact getTransportLoop_eq_some supports r ts t
  · rw [FastServer.getTransport, registerAll_transports]
    exact getTransportLoop_eq_none supports r ts

/-! ## The `Upgrade` header -/

theorem GET_Supports_upgrade (h : GET) (ctx : RequestCtx)
    (hu : peek ctx.header "Upgrade" ≠ "") : h.Supports ctx = false := by
  simp [GET.Supports, hu]

theorem POST_Supports_upgrade (parseMediaType : String → Option String) (h : POST)
    (ctx : RequestCtx) (hu : peek ctx.header "Upgrade" ≠ "") :
    h.Supports parseMediaType ctx = false := by
  simp [POST.Supports, hu]

theorem MultipartForm_Supports_upgrade (parseMediaType : String → Option String)
    (f : MultipartForm) (ctx : RequestCtx) (hu : peek ctx.header "Upgrade" ≠ "") :
    f.Supports parseMediaType ctx = false := by
  simp [MultipartForm.Supports, hu]

/-- C2: `Options.Supports` never looks at the `Upgrade` header: an `OPTIONS` request and
a `HEAD` request that carry `Upgrade: websocket` are both supported by `Options`, while
`GET.Supports` rejects the same header on a `GET` request. -/
theorem Options_Supports_accepts_upgrade :
    Options.Supports {}
      { method := "OPTIONS", header := [("Upgrade", "websocket")], contentLength := 0,
        queryArgs := [] } = true ∧
    Options.Supports {}
      { method := "HEAD", header := [("Upgrade", "websocket")], contentLength := 0,
        queryArgs := [] } = true ∧
    GET.Supports {}
      { method := "GET", header := [("Upgrade", "websocket")], contentLength := 0,
        queryArgs := [] } = false := by
  decide

/-! ## Aborted uploads never reach the executor -/

@[simp] theorem rawStatusCode_append (l l2 : List Event) :
    rawStatusCode (l ++ l2) = l2.foldl (fun cur e => match e with
      | .setStatusCode c => c
      | _ => cur) (rawStatusCode l) := by
  simp [rawStatusCode, List.foldl_append]

@[simp] theorem noFailure_nil : noFailure [] = true := rfl

@[simp] theorem noExecutor_nil : noExecutor [] = true := rfl

@[simp] theorem noCleanup_nil : noCleanup [] = true := rfl

@[simp] theorem noFailure_cons (e : Event) (l : List Event) :
    noFailure (e :: l) = (!e.failed && noFailure l) := by
  simp [noFailure]

@[simp] theorem noExecutor_cons (e : Event) (l : List Event) :
    noExecutor (e :: l) = (!e.isExecutor && noExecutor l) := by
  simp [noExecutor]

@[simp] theorem noCleanup_cons (e : Event) (l : List Event) :
    noCleanup (e :: l) = (!e.isCleanup && noCleanup l) := by
  simp [noCleanup]

@[simp] theorem noFailure_append (l l2 : List Event) :
    noFailure (l ++ l2) = (noFailure l && noFailure l2) := by
  simp [noFailure]

@[simp] theorem noExecutor_append (l l2 : List Event) :
    noExecutor (l ++ l2) = (noExecutor l && noExecutor l2) := by
  simp [noExecutor]

@[simp] theorem noCleanup_append (l l2 : List Event) :
    noCleanup (l ++ l2) = (noCleanup l && noCleanup l2) := by
  simp [noCleanup]

theorem addUploadStep_outcome (w : World) (upload : Upload) (key path : String) (st : St)
    (h : Clean st) : StepOutcome (addUploadStep w upload key path st) := by
  obtain ⟨h1, h2⟩ := h
  unfold addUploadStep
  split <;>
    simp [StepOutcome, Aborted, Clean, writeJsonGraphqlError, writeJson, SetStatusCode, St.log,
      Event.failed, Event.isExecutor, h1, h2]

theorem attachBuffered_outcome (w : World) (fh : FileHeader) (key : String)
    (fileBytes : List Nat) (paths : List String) (st : St) (h : Clean st) :
    StepOutcome (attachBuffered w fh key fileBytes paths st) := by
  induction paths generalizing st with
  | nil => simpa [attachBuffered, StepOutcome] using h
  | cons path rest ih =>
    have hstep := addUploadStep_outcome w (mkUpload (.bytesReader fileBytes) fh) key path st h
    unfold attachBuffered
    cases hres : addUploadStep w (mkUpload (.bytesReader fileBytes) fh) key path st with
    | error st1 => simpa [StepOutcome, hres] using hstep
    | ok st1 =>
      rw [hres] at hstep
      exact ih st1 hstep

theorem attachSpooled_outcome (w : World) (fh : FileHeader) (key tmpName : String)
    (i : Nat) (paths : List String) (st : St) (h : Clean st) :
    StepOutcome (attachSpooled w fh key tmpName i paths st) := by
  induction paths generalizing st i with
  | nil => simpa [attachSpooled, StepOutcome] using h
  | cons path rest ih =>
    obtain ⟨h1, h2⟩ := h
    unfold attachSpooled
    split
    · have hclean : Clean ((st.log (.osOpen tmpName i true)).defer
          (.closeFile (.tmpHandle tmpName i))) := by
        simp [Clean, St.log, St.defer, Event.failed, Event.isExecutor, h1, h2]
      have hstep := addUploadStep_outcome w (mkUpload (.tmpHandle tmpName i) fh) key path _ hclean
      cases hres : addUploadStep w (mkUpload (.tmpHandle tmpName i) fh) key path
          ((st.log (.osOpen tmpName i true)).defer (.closeFile (.tmpHandle tmpName i))) with
      | error st1 => simpa [StepOutcome, hres] using hstep
      | ok st1 =>
        rw [hres] at hstep
        simpa [hres] using ih (i + 1) st1 hstep
    · simp [StepOutcome, Aborted, writeJsonErrorf, writeJsonError, writeJson, SetStatusCode, St.log,
        Event.isExecutor, h2]

theorem spoolKey_outcome (w : World) (fh : FileHeader) (key : String) (paths : List String)
    (st : St) (h : Clean st) : StepOutcome (spoolKey w fh key paths st) := by
  obtain ⟨h1, h2⟩ := h
  unfold spoolKey
  split
  · simp [StepOutcome, Aborted, writeJsonErrorf, writeJsonError, writeJson, SetStatusCode, St.log,
      Event.isExecutor, h2]
  · split
    · split
      · apply attachSpooled_outcome
        simp [Clean, St.log, St.defer, Event.failed, Event.isExecutor, h1, h2]
      · simp [StepOutcome, Aborted, writeJsonErrorf, writeJsonError, writeJson, SetStatusCode, St.log,
          St.defer, Event.isExecutor, h2]
    · split <;>
        simp [StepOutcome, Aborted, writeJsonErrorf, writeJsonError, writeJson, SetStatusCode, St.log,
          St.defer, Event.isExecutor, h2]

theorem processKey_outcome (f : MultipartForm) (w : World) (rctx : RequestCtx)
    (key : String) (paths : List String) (st : St) (h : Clean st) :
    StepOutcome (processKey f w rctx key paths st) := by
  obtain ⟨h1, h2⟩ := h
  unfold processKey
  split
  · simp [StepOutcome, Aborted, writeJsonErrorf, writeJsonError, writeJson, SetStatusCode, St.log,
      Event.isExecutor, h2]
  · split
    · simp [StepOutcome, Aborted, writeJsonErrorf, writeJsonError, writeJson, SetStatusCode, St.log,
        Event.isExecutor, h2]
    · split
      · have hclean : Clean (((st.log (.formFile key true)).log (.fhOpen key true)).defer
            (.closeFile (.formFile key))) := by
          simp [Clean, St.log, St.defer, Event.failed, Event.isExecutor, h1, h2]
        split
        · exact addUploadStep_outcome _ _ _ _ _ hclean
        · split
          · split
            · simp [StepOutcome, Aborted, writeJsonErrorf, writeJsonError, writeJson, SetStatusCode, St.log,
                St.defer, Event.isExecutor, h2]
            · apply attachBuffered_outcome
              simp [Clean, St.log, St.defer, Event.failed, Event.isExecutor, h1, h2]
          · exact spoolKey_outcome _ _ _ _ _ hclean
      · simp [StepOutcome, Aborted, writeJsonErrorf, writeJsonError, writeJson, SetStatusCode, St.log,
          Event.isExecutor, h2]

theorem rangeUploads_outcome (f : MultipartForm) (w : World) (rctx : RequestCtx)
    (m : List (String × List String)) (st : St) (h : Clean st) :
    StepOutcome (rangeUploads f w rctx m st) := by
  induction m generalizing st with
  | nil => simpa [rangeUploads, StepOutcome] using h
  | cons kp rest ih =>
    obtain ⟨key, paths⟩ := kp
    have hstep := processKey_outcome f w rctx key paths st h
    unfold rangeUploads
    cases hres : processKey f w rctx key paths st with
    | error st1 => simpa [StepOutcome, hres] using hstep
    | ok st1 =>
      rw [hres] at hstep
      exact ih st1 hstep

theorem rangeUploads_ok_nonempty (f : MultipartForm) (w : World) (rctx : RequestCtx)
    (m : List (String × List String)) (st st1 : St)
    (h : rangeUploads f w rctx m st = .ok st1) : ∀ kp ∈ m, kp.2 ≠ [] := by
  induction m generalizing st with
  | nil => simp
  | cons kp rest ih =>
    obtain ⟨key, paths⟩ := kp
    unfold rangeUploads at h
    cases hres : processKey f w rctx key paths st with
    | error st2 => simp [hres] at h
    | ok st2 =>
      rw [hres] at h
      intro kp hkp
      rcases List.mem_cons.mp hkp with rfl | hmem
      · intro hempty
        simp only at hempty
        subst hempty
        simp [processKey] at hres
      · exact ih st2 h kp hmem

theorem deferred_event_not_failed (ds : List Deferred) :
    noFailure (ds.map Deferred.event) = true := by
  induction ds with
  | nil => rfl
  | cons d rest ih => cases d <;> simp [Deferred.event, Event.failed, ih]

theorem deferred_event_not_executor (ds : List Deferred) :
    noExecutor (ds.map Deferred.event) = true := by
  induction ds with
  | nil => rfl
  | cons d rest ih => cases d <;> simp [Deferred.event, Event.isExecutor, ih]

theorem deferred_event_status (ds : List Deferred) (c : Nat) :
    (ds.map Deferred.event).foldl (fun cur e => match e with
      | .setStatusCode c => c
      | _ => cur) c = c := by
  induction ds with
  | nil => rfl
  | cons d rest ih => cases d <;> simpa [Deferred.event] using ih

theorem rawStatusCode_runDefers (st : St) :
    rawStatusCode st.runDefers.events = rawStatusCode st.events := by
  simp [St.runDefers, deferred_event_status]

theorem noExecutor_runDefers (st : St) :
    noExecutor st.runDefers.events = noExecutor st.events := by
  simp [St.runDefers, deferred_event_not_executor]

theorem noFailure_runDefers (st : St) :
    noFailure st.runDefers.events = noFailure st.events := by
  simp [St.runDefers, deferred_event_not_failed]

theorem execute_noFailure (w : World) (exec : GraphExecutor) (st : St) :
    noFailure (MultipartForm.execute w exec st).events = noFailure st.events := by
  unfold MultipartForm.execute
  split <;> simp [writeJson, SetStatusCode, St.log, Event.failed]

theorem body_of_oversize (f : MultipartForm) (w : World) (exec : GraphExecutor)
    (rctx : RequestCtx) (hsize : rctx.contentLength > f.maxUploadSize) :
    MultipartForm.body f w exec rctx = .error
      (writeJsonError (St.init.log (.setHeader "Content-Type" "application/json"))
        "failed to parse multipart form, request body too large") := by
  simp [MultipartForm.body, hsize]

theorem body_of_decoded (f : MultipartForm) (w : World) (exec : GraphExecutor)
    (rctx : RequestCtx) (hsize : rctx.contentLength ≤ f.maxUploadSize) (params : RawParams)
    (m : List (String × List String))
    (hp : w.decodeParams (w.FormValue "operations") = some params)
    (hm : w.unmarshalMap (w.FormValue "map") = some m) :
    MultipartForm.body f w exec rctx =
      match rangeUploads f w rctx m (loopStart params) with
      | .error st3 => .error st3
      | .ok st3 => .ok (MultipartForm.execute w exec st3) := by
  simp [MultipartForm.body, not_lt.mpr hsize, hp, hm, St.log, St.init, loopStart]

theorem loopStart_clean (params : RawParams) : Clean (loopStart params) := by
  simp [Clean, loopStart, Event.failed, Event.isExecutor]

theorem body_outcome (f : MultipartForm) (w : World) (exec : GraphExecutor)
    (rctx : RequestCtx) (hsize : rctx.contentLength ≤ f.maxUploadSize) :
    match MultipartForm.body f w exec rctx with
    | .error st => Aborted st
    | .ok st =>
      (∀ m, w.unmarshalMap (w.FormValue "map") = some m → ∀ kp ∈ m, kp.2 ≠ []) ∧
        ∃ st3, Clean st3 ∧ st = MultipartForm.execute w exec st3 := by
  cases hp : w.decodeParams (w.FormValue "operations") with
  | none =>
    simp [MultipartForm.body, not_lt.mpr hsize, hp, Aborted, writeJsonErrorf, writeJsonError, writeJson,
      SetStatusCode, St.log, St.init, Event.isExecutor, rawStatusCode]
  | some params =>
    cases hm : w.unmarshalMap (w.FormValue "map") with
    | none =>
      simp [MultipartForm.body, not_lt.mpr hsize, hp, hm, Aborted, writeJsonErrorf, writeJsonError, writeJson,
        SetStatusCode, St.log, St.init, Event.isExecutor, rawStatusCode]
    | some m =>
      rw [body_of_decoded f w exec rctx hsize params m hp hm]
      have hout := rangeUploads_outcome f w rctx m _ (loopStart_clean params)
      cases hres : rangeUploads f w rctx m (loopStart params) with
      | error st3 =>
        rw [hres] at hout
        exact hout
      | ok st3 =>
        rw [hres] at hout
        refine ⟨?_, st3, hout, rfl⟩
        intro m2 hm2
        cases hm2
        exact rangeUploads_ok_nonempty f w rctx _ _ _ hres

theorem mem_of_noExecutor {l : List Event} (h : noExecutor l = true) {e : Event}
    (he : e ∈ l) : e.isExecutor = false := by
  have := (List.all_eq_true.mp h) e he
  simpa using this

theorem mem_of_noFailure {l : List Event} (h : noFailure l = true) {e : Event}
    (he : e ∈ l) : e.failed = false := by
  have := (List.all_eq_true.mp h) e he
  simpa using this

/-- C3: when the declared content length is within the upload ceiling and a decode or
attachment step fails (some decode, form-file, open, read, temporary-file, copy,
close, reopen or `AddUpload` call in the run returned an error, or the decoded map has
a key with an empty path list), `MultipartForm.Do` ends with status 422 and has called
none of the executor's `CreateOperationContext`, `DispatchOperation` and
`DispatchError`. -/
theorem MultipartForm_Do_failure_is_422 (f : MultipartForm) (w : World)
    (exec : GraphExecutor) (rctx : RequestCtx)
    (hsize : rctx.contentLength ≤ f.maxUploadSize)
    (hfail : (∃ e ∈ (f.Do w exec rctx).events, e.failed = true) ∨
      (∃ m, w.unmarshalMap (w.FormValue "map") = some m ∧ ∃ kp ∈ m, kp.2 = [])) :
    statusCode (f.Do w exec rctx).events = 422 ∧
    (∀ ok, Event.createOperationContext ok ∉ (f.Do w exec rctx).events) ∧
    Event.dispatchOperation ∉ (f.Do w exec rctx).events ∧
    Event.dispatchError ∉ (f.Do w exec rctx).events := by
  have hout := body_outcome f w exec rctx hsize
  unfold MultipartForm.Do at hfail ⊢
  cases hbody : MultipartForm.body f w exec rctx with
  | error st =>
    rw [hbody] at hout
    obtain ⟨hstatus, hexec⟩ : Aborted st := hout
    have hexec2 : noExecutor st.runDefers.events = true := by
      rw [noExecutor_runDefers]; exact hexec
    refine ⟨?_, ?_, ?_, ?_⟩
    · simp [statusCode, rawStatusCode_runDefers, hstatus]
    · intro ok hmem
      simpa [Event.isExecutor] using mem_of_noExecutor hexec2 hmem
    · intro hmem
      simpa [Event.isExecutor] using mem_of_noExecutor hexec2 hmem
    · intro hmem
      simpa [Event.isExecutor] using mem_of_noExecutor hexec2 hmem
  | ok st =>
    rw [hbody] at hout hfail
    obtain ⟨hne, st3, hclean, rfl⟩ := hout
    exfalso
    rcases hfail with ⟨e, he, hfailed⟩ | ⟨m, hm, kp, hkp, hempty⟩
    · have hnf : noFailure (MultipartForm.execute w exec st3).runDefers.events = true := by
        rw [noFailure_runDefers, execute_noFailure]; exact hclean.1
      have := mem_of_noFailure hnf he
      simp [this] at hfailed
    · exact hne m hm kp hkp hempty

/-- Witness of `MultipartForm_Do_failure_is_422`: a map whose only key has an empty
path list. -/
theorem MultipartForm_Do_failure_is_422_witness :
    statusCode ((MultipartForm.mk 0 0).Do (okWorld [("1", [])]) okExecutor
      (formRequest 100)).events = 422 ∧
    (∀ ok, Event.createOperationContext ok ∉ ((MultipartForm.mk 0 0).Do
      (okWorld [("1", [])]) okExecutor (formRequest 100)).events) ∧
    Event.dispatchOperation ∉ ((MultipartForm.mk 0 0).Do (okWorld [("1", [])]) okExecutor
      (formRequest 100)).events ∧
    Event.dispatchError ∉ ((MultipartForm.mk 0 0).Do (okWorld [("1", [])]) okExecutor
      (formRequest 100)).events :=
  MultipartForm_Do_failure_is_422 (MultipartForm.mk 0 0) (okWorld [("1", [])]) okExecutor
    (formRequest 100) (by decide)
    (Or.inr ⟨[("1", [])], rfl, ("1", []), List.mem_singleton.mpr rfl, rfl⟩)

/-! ## Empty path lists -/

theorem Do_eq_runDefers (f : MultipartForm) (w : World) (exec : GraphExecutor)
    (rctx : RequestCtx) :
    f.Do w exec rctx = (finalState (MultipartForm.body f w exec rctx)).runDefers := by
  unfold MultipartForm.Do
  cases MultipartForm.body f w exec rctx <;> rfl

@[simp] theorem noFormFileOf_nil (K : String) : noFormFileOf K [] = true := rfl

@[simp] theorem noFormFileOf_cons (K : String) (e : Event) (l : List Event) :
    noFormFileOf K (e :: l) = (!e.isFormFileOf K && noFormFileOf K l) := by
  simp [noFormFileOf]

@[simp] theorem noFormFileOf_append (K : String) (l l2 : List Event) :
    noFormFileOf K (l ++ l2) = (noFormFileOf K l && noFormFileOf K l2) := by
  simp [noFormFileOf]

theorem addUploadStep_noFormFile (K : String) (w : World) (upload : Upload)
    (key path : String) (st : St) :
    noFormFileOf K (finalState (addUploadStep w upload key path st)).events =
      noFormFileOf K st.events := by
  unfold addUploadStep
  split <;>
    simp [finalState, writeJsonGraphqlError, writeJson, SetStatusCode, St.log,
      Event.isFormFileOf]

theorem attachBuffered_noFormFile (K : String) (w : World) (fh : FileHeader) (key : String)
    (fileBytes : List Nat) (paths : List String) (st : St) :
    noFormFileOf K (finalState (attachBuffered w fh key fileBytes paths st)).events =
      noFormFileOf K st.events := by
  induction paths generalizing st with
  | nil => simp [attachBuffered, finalState]
  | cons path rest ih =>
    have hstep := addUploadStep_noFormFile K w (mkUpload (.bytesReader fileBytes) fh) key path st
    unfold attachBuffered
    cases hres : addUploadStep w (mkUpload (.bytesReader fileBytes) fh) key path st with
    | error st1 => simpa [finalState, hres] using hstep
    | ok st1 =>
      rw [hres] at hstep
      simp only [finalState] at hstep
      rw [← hstep]
      exact ih st1

theorem attachSpooled_noFormFile (K : String) (w : World) (fh : FileHeader)
    (key tmpName : String) (i : Nat) (paths : List String) (st : St) :
    noFormFileOf K (finalState (attachSpooled w fh key tmpName i paths st)).events =
      noFormFileOf K st.events := by
  induction paths generalizing st i with
  | nil => simp [attachSpooled, finalState]
  | cons path rest ih =>
    unfold attachSpooled
    split
    · have hstep := addUploadStep_noFormFile K w (mkUpload (.tmpHandle tmpName i) fh) key path
        ((st.log (.osOpen tmpName i true)).defer (.closeFile (.tmpHandle tmpName i)))
      cases hres : addUploadStep w (mkUpload (.tmpHandle tmpName i) fh) key path
          ((st.log (.osOpen tmpName i true)).defer (.closeFile (.tmpHandle tmpName i))) with
      | error st1 =>
        simp only [hres, finalState] at hstep ⊢
        rw [hstep]
        simp [St.log, St.defer, Event.isFormFileOf]
      | ok st1 =>
        rw [hres] at hstep
        simp only [finalState] at hstep
        simp only [hres]
        rw [ih (i + 1) st1, hstep]
        simp [St.log, St.defer, Event.isFormFileOf]
    · simp [finalState, writeJsonErrorf, writeJsonError, writeJson, SetStatusCode, St.log, Event.isFormFileOf]

theorem spoolKey_noFormFile (K : String) (w : World) (fh : FileHeader) (key : String)
    (paths : List String) (st : St) :
    noFormFileOf K (finalState (spoolKey w fh key paths st)).events =
      noFormFileOf K st.events := by
  unfold spoolKey
  split
  · simp [finalState, writeJsonErrorf, writeJsonError, writeJson, SetStatusCode, St.log, Event.isFormFileOf]
  · split
    · split
      · rw [attachSpooled_noFormFile]
        simp [St.log, St.defer, Event.isFormFileOf]
      · simp [finalState, writeJsonErrorf, writeJsonError, writeJson, SetStatusCode, St.log, St.defer,
          Event.isFormFileOf]
    · split <;>
        simp [finalState, writeJsonErrorf, writeJsonError, writeJson, SetStatusCode, St.log, St.defer,
          Event.isFormFileOf]

theorem processKey_noFormFile (K : String) (f : MultipartForm) (w : World)
    (rctx : RequestCtx) (key : String) (paths : List String) (st : St)
    (h : key = K → paths = []) :
    noFormFileOf K (finalState (processKey f w rctx key paths st)).events =
      noFormFileOf K st.events := by
  unfold processKey
  split
  · simp [finalState, writeJsonErrorf, writeJsonError, writeJson, SetStatusCode, St.log, Event.isFormFileOf]
  · rename_i hlen
    have hne : key ≠ K := by
      intro hk
      rw [h hk] at hlen
      exact hlen rfl
    split
    · simp [finalState, writeJsonErrorf, writeJsonError, writeJson, SetStatusCode, St.log, Event.isFormFileOf,
        hne]
    · split
      · split
        · rw [addUploadStep_noFormFile]
          simp [St.log, St.defer, Event.isFormFileOf, hne]
        · split
          · split
            · simp [finalState, writeJsonErrorf, writeJsonError, writeJson, SetStatusCode, St.log, St.defer,
                Event.isFormFileOf, hne]
            · rw [attachBuffered_noFormFile]
              simp [St.log, St.defer, Event.isFormFileOf, hne]
          · rw [spoolKey_noFormFile]
            simp [St.log, St.defer, Event.isFormFileOf, hne]
      · simp [finalState, writeJsonErrorf, writeJsonError, writeJson, SetStatusCode, St.log, Event.isFormFileOf,
          hne]

theorem rangeUploads_noFormFile (K : String) (f : MultipartForm) (w : World)
    (rctx : RequestCtx) (m : List (String × List String)) (st : St)
    (h : ∀ kp ∈ m, kp.1 = K → kp.2 = []) :
    noFormFileOf K (finalState (rangeUploads f w rctx m st)).events =
      noFormFileOf K st.events := by
  induction m generalizing st with
  | nil => simp [rangeUploads, finalState]
  | cons kp rest ih =>
    obtain ⟨key, paths⟩ := kp
    have hstep := processKey_noFormFile K f w rctx key paths st
      (h (key, paths) (List.mem_cons_self _ _))
    unfold rangeUploads
    cases hres : processKey f w rctx key paths st with
    | error st1 => simpa [finalState, hres] using hstep
    | ok st1 =>
      rw [hres] at hstep
      simp only [finalState] at hstep
      simp only
      rw [ih st1 (fun kp hkp => h kp (List.mem_cons_of_mem _ hkp)), hstep]

theorem addUploadStep_error_failed (w : World) (upload : Upload) (key path : String)
    (st st1 : St) (h : addUploadStep w upload key path st = .error st1) :
    noFailure st1.events = false := by
  unfold addUploadStep at h
  split at h
  · cases h
    simp [writeJsonGraphqlError, writeJson, SetStatusCode, St.log, Event.failed]
  · cases h

theorem attachBuffered_error_failed (w : World) (fh : FileHeader) (key : String)
    (fileBytes : List Nat) (paths : List String) (st st1 : St)
    (h : attachBuffered w fh key fileBytes paths st = .error st1) :
    noFailure st1.events = false := by
  induction paths generalizing st with
  | nil => simp [attachBuffered] at h
  | cons path rest ih =>
    unfold attachBuffered at h
    cases hres : addUploadStep w (mkUpload (.bytesReader fileBytes) fh) key path st with
    | error st2 =>
      rw [hres] at h
      cases h
      exact addUploadStep_error_failed _ _ _ _ _ _ hres
    | ok st2 =>
      rw [hres] at h
      exact ih st2 h

theorem attachSpooled_error_failed (w : World) (fh : FileHeader) (key tmpName : String)
    (i : Nat) (paths : List String) (st st1 : St)
    (h : attachSpooled w fh key tmpName i paths st = .error st1) :
    noFailure st1.events = false := by
  induction paths generalizing st i with
  | nil => simp [attachSpooled] at h
  | cons path rest ih =>
    unfold attachSpooled at h
    split at h
    · cases hres : addUploadStep w (mkUpload (.tmpHandle tmpName i) fh) key path
          ((st.log (.osOpen tmpName i true)).defer (.closeFile (.tmpHandle tmpName i))) with
      | error st2 =>
        simp only [hres] at h
        cases h
        exact addUploadStep_error_failed _ _ _ _ _ _ hres
      | ok st2 =>
        simp only [hres] at h
        exact ih (i + 1) st2 h
    · cases h
      simp [writeJsonErrorf, writeJsonError, writeJson, SetStatusCode, St.log, Event.failed]

theorem spoolKey_error_failed (w : World) (fh : FileHeader) (key : String)
    (paths : List String) (st st1 : St) (h : spoolKey w fh key paths st = .error st1) :
    noFailure st1.events = false := by
  unfold spoolKey at h
  split at h
  · cases h
    simp [writeJsonErrorf, writeJsonError, writeJson, SetStatusCode, St.log, Event.failed]
  · split at h
    · split at h
      · exact attachSpooled_error_failed _ _ _ _ _ _ _ _ h
      · cases h
        simp [writeJsonErrorf, writeJsonError, writeJson, SetStatusCode, St.log, St.defer, Event.failed]
    · split at h <;> cases h <;>
        simp [writeJsonErrorf, writeJsonError, writeJson, SetStatusCode, St.log, St.defer, Event.failed]

theorem processKey_error_failed (f : MultipartForm) (w : World) (rctx : RequestCtx)
    (key : String) (paths : List String) (st st1 : St) (hne : paths ≠ [])
    (h : processKey f w rctx key paths st = .error st1) :
    noFailure st1.events = false := by
  unfold processKey at h
  split at h
  · rename_i hlen
    exact absurd (List.length_eq_zero.mp hlen) hne
  · split at h
    · cases h
      simp [writeJsonErrorf, writeJsonError, writeJson, SetStatusCode, St.log, Event.failed]
    · split at h
      · split at h
        · exact addUploadStep_error_failed _ _ _ _ _ _ h
        · split at h
          · split at h
            · cases h
              simp [writeJsonErrorf, writeJsonError, writeJson, SetStatusCode, St.log, St.defer, Event.failed]
            · exact attachBuffered_error_failed _ _ _ _ _ _ _ h
          · exact spoolKey_error_failed _ _ _ _ _ _ h
      · cases h
        simp [writeJsonErrorf, writeJsonError, writeJson, SetStatusCode, St.log, Event.failed]

theorem rangeUploads_error_failed (f : MultipartForm) (w : World) (rctx : RequestCtx)
    (m : List (String × List String)) (st st1 : St) (hne : ∀ kp ∈ m, kp.2 ≠ [])
    (h : rangeUploads f w rctx m st = .error st1) :
    noFailure st1.events = false := by
  induction m generalizing st with
  | nil => simp [rangeUploads] at h
  | cons kp rest ih =>
    obtain ⟨key, paths⟩ := kp
    unfold rangeUploads at h
    cases hres : processKey f w rctx key paths st with
    | error st2 =>
      rw [hres] at h
      cases h
      exact processKey_error_failed f w rctx key paths st _
        (hne (key, paths) (List.mem_cons_self _ _)) hres
    | ok st2 =>
      rw [hres] at h
      exact ih st2 (fun kp hkp => hne kp (List.mem_cons_of_mem _ hkp)) h

theorem rangeUploads_append (f : MultipartForm) (w : World) (rctx : RequestCtx)
    (pre rest : List (String × List String)) (st : St) :
    rangeUploads f w rctx (pre ++ rest) st =
      match rangeUploads f w rctx pre st with
      | .error st1 => .error st1
      | .ok st1 => rangeUploads f w rctx rest st1 := by
  induction pre generalizing st with
  | nil => simp [rangeUploads]
  | cons kp pre ih =>
    obtain ⟨key, paths⟩ := kp
    simp only [List.cons_append, rangeUploads]
    cases processKey f w rctx key paths st with
    | error st2 => rfl
    | ok st2 => exact ih st2

theorem rangeUploads_empty_key (f : MultipartForm) (w : World) (rctx : RequestCtx)
    (K : String) (post : List (String × List String)) (st : St) :
    rangeUploads f w rctx ((K, []) :: post) st = .error
      (writeJsonError (SetStatusCode st 422)
        ("invalid empty operations paths list for key " ++ K)) := by
  simp [rangeUploads, processKey, writeJsonErrorf]

theorem paths_unique_of_nodup_keys (m : List (String × List String))
    (hkeys : (m.map Prod.fst).Nodup) (K : String) (p q : List String)
    (hp : (K, p) ∈ m) (hq : (K, q) ∈ m) : p = q := by
  induction m with
  | nil => cases hp
  | cons kp rest ih =>
    simp only [List.map_cons, List.nodup_cons, List.mem_map, not_exists, not_and] at hkeys
    rcases List.mem_cons.mp hp with hp1 | hp1 <;> rcases List.mem_cons.mp hq with hq1 | hq1
    · rw [← hp1] at hq1
      exact (Prod.mk.inj hq1).2.symm
    · exact absurd (by rw [← hp1]) (hkeys.1 (K, q) hq1)
    · exact absurd (by rw [← hq1]) (hkeys.1 (K, p) hp1)
    · exact ih hkeys.2 hp1 hq1

theorem mem_of_noFormFileOf {K : String} {l : List Event} (h : noFormFileOf K l = true)
    (ok : Bool) : Event.formFile K ok ∉ l := by
  intro hmem
  have := (List.all_eq_true.mp h) _ hmem
  simp [Event.isFormFileOf] at this

theorem noFormFileOf_runDefers (K : String) (st : St) :
    noFormFileOf K st.runDefers.events = noFormFileOf K st.events := by
  have hd : ∀ ds : List Deferred, noFormFileOf K (ds.map Deferred.event) = true := by
    intro ds
    induction ds with
    | nil => rfl
    | cons d rest ih => cases d <;> simp [Deferred.event, Event.isFormFileOf, ih]
  simp [St.runDefers, hd]

/-- C4 (the claim as stated fails): `range` visits the key `a`, which has one path but
no form file, before the key `K`, whose path list is empty.  The run ends with status
422, but the only response written names `a` ("failed to get key a from form"); the
message that identifies `K` is never written. -/
theorem empty_paths_message_counterexample :
    ("K", []) ∈ [("a", ["variables.file"]), ("K", ([] : List String))] ∧
    statusCode emptyKeyAfterMissingFile.events = 422 ∧
    Event.write (errorResponse "invalid empty operations paths list for key K") ∉
      emptyKeyAfterMissingFile.events ∧
    Event.write (errorResponse "failed to get key a from form") ∈
      emptyKeyAfterMissingFile.events := by
  decide

/-! ## One response per aborted upload -/

theorem writes_nil : writes [] = [] := rfl

theorem writes_cons (e : Event) (l : List Event) :
    writes (e :: l) =
      (match e with
        | .write resp => [resp]
        | _ => []) ++ writes l := by
  unfold writes
  rw [List.filterMap_cons]
  split <;> rename_i h <;> split at h <;> simp_all

theorem writes_append (l l2 : List Event) :
    writes (l ++ l2) = writes l ++ writes l2 := by
  simp [writes]

theorem WritesOutcome_trans (st st1 : St) (r : Except St St)
    (h1 : writes st1.events = writes st.events) (h2 : WritesOutcome st1 r) :
    WritesOutcome st r := by
  cases r with
  | ok st2 => simpa [WritesOutcome, h1] using h2
  | error st2 => simpa [WritesOutcome, h1] using h2

theorem addUploadStep_writes (w : World) (upload : Upload) (key path : String) (st : St) :
    WritesOutcome st (addUploadStep w upload key path st) := by
  unfold addUploadStep
  split <;>
    simp [WritesOutcome, writes_nil, writes_cons, writes_append, writeJsonGraphqlError, writeJson, SetStatusCode, St.log]

theorem attachBuffered_writes (w : World) (fh : FileHeader) (key : String)
    (fileBytes : List Nat) (paths : List String) (st : St) :
    WritesOutcome st (attachBuffered w fh key fileBytes paths st) := by
  induction paths generalizing st with
  | nil => simp [attachBuffered, WritesOutcome]
  | cons path rest ih =>
    have hstep := addUploadStep_writes w (mkUpload (.bytesReader fileBytes) fh) key path st
    unfold attachBuffered
    cases hres : addUploadStep w (mkUpload (.bytesReader fileBytes) fh) key path st with
    | error st1 => simpa [hres] using hstep
    | ok st1 =>
      rw [hres] at hstep
      exact WritesOutcome_trans st st1 _ hstep (ih st1)

theorem attachSpooled_writes (w : World) (fh : FileHeader) (key tmpName : String)
    (i : Nat) (paths : List String) (st : St) :
    WritesOutcome st (attachSpooled w fh key tmpName i paths st) := by
  induction paths generalizing st i with
  | nil => simp [attachSpooled, WritesOutcome]
  | cons path rest ih =>
    unfold attachSpooled
    split
    · have hlog : writes ((st.log (.osOpen tmpName i true)).defer
          (.closeFile (.tmpHandle tmpName i))).events = writes st.events := by
        simp [St.log, St.defer, writes_nil, writes_cons, writes_append]
      have hstep := addUploadStep_writes w (mkUpload (.tmpHandle tmpName i) fh) key path
        ((st.log (.osOpen tmpName i true)).defer (.closeFile (.tmpHandle tmpName i)))
      cases hres : addUploadStep w (mkUpload (.tmpHandle tmpName i) fh) key path
          ((st.log (.osOpen tmpName i true)).defer (.closeFile (.tmpHandle tmpName i))) with
      | error st1 =>
        rw [hres] at hstep
        simp only [hres]
        exact WritesOutcome_trans st _ _ hlog hstep
      | ok st1 =>
        rw [hres] at hstep
        simp only [hres]
        exact WritesOutcome_trans st _ _ hlog
          (WritesOutcome_trans _ st1 _ hstep (ih (i + 1) st1))
    · simp [WritesOutcome, writes_nil, writes_cons, writes_append, writeJsonErrorf, writeJsonError, writeJson, SetStatusCode, St.log]

theorem spoolKey_writes (w : World) (fh : FileHeader) (key : String) (paths : List String)
    (st : St) : WritesOutcome st (spoolKey w fh key paths st) := by
  unfold spoolKey
  split
  · simp [WritesOutcome, writes_nil, writes_cons, writes_append, writeJsonErrorf, writeJsonError, writeJson, SetStatusCode, St.log]
  · split
    · split
      · refine WritesOutcome_trans st _ _ ?_ (attachSpooled_writes _ _ _ _ _ _ _)
        simp [St.log, St.defer, writes_nil, writes_cons, writes_append]
      · simp [WritesOutcome, writes_nil, writes_cons, writes_append, writeJsonErrorf, writeJsonError, writeJson, SetStatusCode,
          St.log, St.defer]
    · split <;>
        simp [WritesOutcome, writes_nil, writes_cons, writes_append, writeJsonErrorf, writeJsonError, writeJson, SetStatusCode,
          St.log, St.defer]

theorem processKey_writes (f : MultipartForm) (w : World) (rctx : RequestCtx)
    (key : String) (paths : List String) (st : St) :
    WritesOutcome st (processKey f w rctx key paths st) := by
  unfold processKey
  split
  · simp [WritesOutcome, writes_nil, writes_cons, writes_append, writeJsonErrorf, writeJsonError, writeJson, SetStatusCode, St.log]
  · split
    · simp [WritesOutcome, writes_nil, writes_cons, writes_append, writeJsonErrorf, writeJsonError, writeJson, SetStatusCode, St.log]
    · split
      · have hlog : writes (((st.log (.formFile key true)).log (.fhOpen key true)).defer
            (.closeFile (.formFile key))).events = writes st.events := by
          simp [St.log, St.defer, writes_nil, writes_cons, writes_append]
        split
        · exact WritesOutcome_trans st _ _ hlog (addUploadStep_writes _ _ _ _ _)
        · split
          · split
            · simp [WritesOutcome, writes_nil, writes_cons, writes_append, writeJsonErrorf, writeJsonError, writeJson, SetStatusCode,
                St.log, St.defer]
            · refine WritesOutcome_trans st _ _ ?_ (attachBuffered_writes _ _ _ _ _ _)
              simp [St.log, St.defer, writes_nil, writes_cons, writes_append]
          · exact WritesOutcome_trans st _ _ hlog (spoolKey_writes _ _ _ _ _)
      · simp [WritesOutcome, writes_nil, writes_cons, writes_append, writeJsonErrorf, writeJsonError, writeJson, SetStatusCode, St.log]

theorem rangeUploads_writes (f : MultipartForm) (w : World) (rctx : RequestCtx)
    (m : List (String × List String)) (st : St) :
    WritesOutcome st (rangeUploads f w rctx m st) := by
  induction m generalizing st with
  | nil => simp [rangeUploads, WritesOutcome]
  | cons kp rest ih =>
    obtain ⟨key, paths⟩ := kp
    have hstep := processKey_writes f w rctx key paths st
    unfold rangeUploads
    cases hres : processKey f w rctx key paths st with
    | error st1 => simpa [hres] using hstep
    | ok st1 =>
      rw [hres] at hstep
      exact WritesOutcome_trans st st1 _ hstep (ih st1)

theorem writes_runDefers (st : St) : writes st.runDefers.events = writes st.events := by
  have hd : ∀ ds : List Deferred, writes (ds.map Deferred.event) = [] := by
    intro ds
    induction ds with
    | nil => rfl
    | cons d rest ih => cases d <;> simp [Deferred.event, writes_cons, ih]
  simp [St.runDefers, writes_append, hd]


/-! ## The upload loop does not look at the map oracle -/

theorem addUploadStep_withMap (w : World) (m2 : List (String × List String)) (upload : Upload)
    (key path : String) (st : St) :
    addUploadStep (w.withMap m2) upload key path st = addUploadStep w upload key path st := rfl

theorem attachBuffered_withMap (w : World) (m2 : List (String × List String))
    (fh : FileHeader) (key : String) (fileBytes : List Nat) (paths : List String) (st : St) :
    attachBuffered (w.withMap m2) fh key fileBytes paths st =
      attachBuffered w fh key fileBytes paths st := by
  induction paths generalizing st with
  | nil => rfl
  | cons path rest ih =>
    simp only [attachBuffered, addUploadStep_withMap]
    cases addUploadStep w (mkUpload (.bytesReader fileBytes) fh) key path st with
    | error st1 => rfl
    | ok st1 => exact ih st1

theorem attachSpooled_withMap (w : World) (m2 : List (String × List String))
    (fh : FileHeader) (key tmpName : String) (i : Nat) (paths : List String) (st : St) :
    attachSpooled (w.withMap m2) fh key tmpName i paths st =
      attachSpooled w fh key tmpName i paths st := by
  induction paths generalizing st i with
  | nil => rfl
  | cons path rest ih =>
    simp only [attachSpooled, addUploadStep_withMap]
    have hopen : (w.withMap m2).osOpen tmpName i = w.osOpen tmpName i := rfl
    rw [hopen]
    split
    · cases addUploadStep w (mkUpload (.tmpHandle tmpName i) fh) key path
          ((st.log (.osOpen tmpName i true)).defer (.closeFile (.tmpHandle tmpName i))) with
      | error st1 => rfl
      | ok st1 => exact ih (i + 1) st1
    · rfl

theorem spoolKey_withMap (w : World) (m2 : List (String × List String))
    (fh : FileHeader) (key : String) (paths : List String) (st : St) :
    spoolKey (w.withMap m2) fh key paths st = spoolKey w fh key paths st := by
  unfold spoolKey
  simp only [attachSpooled_withMap]
  rfl

theorem processKey_withMap (f : MultipartForm) (w : World) (m2 : List (String × List String))
    (rctx : RequestCtx) (key : String) (paths : List String) (st : St) :
    processKey f (w.withMap m2) rctx key paths st = processKey f w rctx key paths st := by
  unfold processKey
  simp only [attachBuffered_withMap, spoolKey_withMap, addUploadStep_withMap]
  rfl

theorem rangeUploads_withMap (f : MultipartForm) (w : World) (m2 : List (String × List String))
    (rctx : RequestCtx) (m : List (String × List String)) (st : St) :
    rangeUploads f (w.withMap m2) rctx m st = rangeUploads f w rctx m st := by
  induction m generalizing st with
  | nil => rfl
  | cons kp rest ih =>
    obtain ⟨key, paths⟩ := kp
    simp only [rangeUploads, processKey_withMap]
    cases processKey f w rctx key paths st with
    | error st1 => rfl
    | ok st1 => exact ih st1

/-- C4 (amended): for a multipart request within the upload ceiling whose operations and
map fields decode, and whose map (keys distinct, as in a Go map) has a key `K` with an
empty path list, `MultipartForm.Do` ends with status 422, never calls `FormFile` for `K`
and writes exactly one response.  When no key that `range` visits before `K` aborts the
request (every earlier key has a non-empty path list and no call of the run failed),
that response is the error "invalid empty operations paths list for key K"; otherwise
the run is, effect for effect, the run of `Do` on the earlier keys alone, so the response
is the message of that earlier failure. -/
theorem MultipartForm_Do_empty_paths (f : MultipartForm) (w : World)
    (exec : GraphExecutor) (rctx : RequestCtx) (params : RawParams)
    (m : List (String × List String)) (K : String)
    (hsize : rctx.contentLength ≤ f.maxUploadSize)
    (hp : w.decodeParams (w.FormValue "operations") = some params)
    (hm : w.unmarshalMap (w.FormValue "map") = some m)
    (hkeys : (m.map Prod.fst).Nodup) (hK : (K, []) ∈ m) :
    statusCode (f.Do w exec rctx).events = 422 ∧
    (∀ ok, Event.formFile K ok ∉ (f.Do w exec rctx).events) ∧
    (∃ resp, writes (f.Do w exec rctx).events = [resp]) ∧
    (∀ pre post, m = pre ++ (K, []) :: post →
      (((∀ kp ∈ pre, kp.2 ≠ []) ∧ ∀ e ∈ (f.Do w exec rctx).events, e.failed = false) →
        writes (f.Do w exec rctx).events =
          [errorResponse ("invalid empty operations paths list for key " ++ K)]) ∧
      (¬((∀ kp ∈ pre, kp.2 ≠ []) ∧ ∀ e ∈ (f.Do w exec rctx).events, e.failed = false) →
        (f.Do w exec rctx).events = (f.Do (w.withMap pre) exec rctx).events)) := by
  have hout := body_outcome f w exec rctx hsize
  have hbody := body_of_decoded f w exec rctx hsize params m hp hm
  have hstartw : writes (loopStart params).events = [] := by
    simp [loopStart, writes_nil, writes_cons]
  rw [Do_eq_runDefers]
  cases hres : rangeUploads f w rctx m (loopStart params) with
  | ok st3 =>
    exact absurd rfl (rangeUploads_ok_nonempty f w rctx m _ _ hres (K, []) hK)
  | error st3 =>
    rw [hres] at hbody
    simp only at hbody
    rw [hbody] at hout ⊢
    obtain ⟨hstatus, _⟩ : Aborted st3 := hout
    simp only [finalState]
    refine ⟨?_, ?_, ?_, ?_⟩
    · simp [statusCode, rawStatusCode_runDefers, hstatus]
    · have hno := rangeUploads_noFormFile K f w rctx m (loopStart params)
        (fun kp hkp hk => by
          obtain ⟨k, paths⟩ := kp
          simp only at hk
          subst hk
          exact paths_unique_of_nodup_keys m hkeys k paths [] hkp hK)
      rw [hres] at hno
      simp only [finalState] at hno
      have hstart : noFormFileOf K (loopStart params).events = true := by
        simp [loopStart, Event.isFormFileOf]
      rw [hstart] at hno
      intro ok
      apply mem_of_noFormFileOf
      rw [noFormFileOf_runDefers]
      exact hno
    · have hw := rangeUploads_writes f w rctx m (loopStart params)
      rw [hres] at hw
      obtain ⟨resp, hresp⟩ := hw
      exact ⟨resp, by rw [writes_runDefers, hresp, hstartw, List.nil_append]⟩
    · intro pre post hsplit
      subst hsplit
      rw [rangeUploads_append] at hres
      cases hpreres : rangeUploads f w rctx pre (loopStart params) with
      | error st4 =>
        rw [hpreres] at hres
        cases hres
        constructor
        · rintro ⟨hpre, hnofail⟩
          exfalso
          have hfailed := rangeUploads_error_failed f w rctx pre _ _ hpre hpreres
          have hnf : noFailure st3.runDefers.events = true :=
            List.all_eq_true.mpr (fun e he => by simp [hnofail e he])
          rw [noFailure_runDefers, hfailed] at hnf
          cases hnf
        · intro _
          have hbody2 := body_of_decoded f (w.withMap pre) exec rctx hsize params pre hp rfl
          rw [rangeUploads_withMap, hpreres] at hbody2
          rw [Do_eq_runDefers, hbody2]
          rfl
      | ok st4 =>
        rw [hpreres] at hres
        simp only [rangeUploads_empty_key] at hres
        cases hres
        have hclean := rangeUploads_outcome f w rctx pre _ (loopStart_clean params)
        rw [hpreres] at hclean
        have hw := rangeUploads_writes f w rctx pre (loopStart params)
        rw [hpreres] at hw
        have hw4 : writes st4.events = [] := by rw [show writes st4.events =
          writes (loopStart params).events from hw, hstartw]
        constructor
        · intro _
          rw [writes_runDefers]
          simp [writeJsonError, writeJson, SetStatusCode, St.log, errorResponse, writes_append,
            writes_cons, writes_nil, hw4]
        · intro hnot
          exfalso
          apply hnot
          refine ⟨rangeUploads_ok_nonempty f w rctx pre _ _ hpreres, ?_⟩
          intro e he
          apply mem_of_noFailure _ he
          rw [noFailure_runDefers]
          simp [writeJsonError, writeJson, SetStatusCode, St.log, Event.failed, hclean.1]

/-- Witness of `MultipartForm_Do_empty_paths`: the map visited as `0` (two paths), then
`K` (no path). -/
theorem MultipartForm_Do_empty_paths_witness :
    statusCode ((MultipartForm.mk 0 0).Do (okWorld [("0", ["variables.a", "variables.b"]),
      ("K", [])]) okExecutor (formRequest 100)).events = 422 ∧
    (∀ ok, Event.formFile "K" ok ∉ ((MultipartForm.mk 0 0).Do
      (okWorld [("0", ["variables.a", "variables.b"]), ("K", [])]) okExecutor
      (formRequest 100)).events) ∧
    writes ((MultipartForm.mk 0 0).Do (okWorld [("0", ["variables.a", "variables.b"]),
        ("K", [])]) okExecutor (formRequest 100)).events =
      [errorResponse ("invalid empty operations paths list for key " ++ "K")] :=
  have h := MultipartForm_Do_empty_paths (MultipartForm.mk 0 0)
    (okWorld [("0", ["variables.a", "variables.b"]), ("K", [])]) okExecutor
    (formRequest 100) sampleParams [("0", ["variables.a", "variables.b"]), ("K", [])] "K"
    (by decide) rfl rfl (by decide) (by decide)
  ⟨h.1, h.2.1,
    (h.2.2.2 [("0", ["variables.a", "variables.b"])] [] rfl).1 ⟨by decide, by decide⟩⟩

/-! ## Requests above the upload ceiling -/

theorem Do_of_oversize (f : MultipartForm) (w : World) (exec : GraphExecutor)
    (rctx : RequestCtx) (hsize : rctx.contentLength > f.maxUploadSize) :
    (f.Do w exec rctx).events =
      [.setHeader "Content-Type" "application/json",
        .write (errorResponse "failed to parse multipart form, request body too large")] := by
  rw [Do_eq_runDefers, body_of_oversize f w exec rctx hsize]
  simp [finalState, St.runDefers, writeJsonErrorf, writeJsonError, writeJson, St.log, St.init, errorResponse]

/-- C7: `maxUploadSize()` is `MaxUploadSize`, or 32 MiB when that is 0; and for a request
whose declared content length exceeds it, all that `MultipartForm.Do` does is set the
content type and write the error "failed to parse multipart form, request body too
large": it reads neither the operations nor the map form field, looks up no form file
and calls no executor method. -/
theorem MultipartForm_Do_rejects_oversize (f : MultipartForm) (w : World)
    (exec : GraphExecutor) (rctx : RequestCtx)
    (hsize : rctx.contentLength > f.maxUploadSize) :
    f.maxUploadSize = (if f.MaxUploadSize = 0 then 33554432 else f.MaxUploadSize) ∧
    (f.Do w exec rctx).events =
      [.setHeader "Content-Type" "application/json",
        .write (errorResponse "failed to parse multipart form, request body too large")] ∧
    (∀ name, Event.formValue name ∉ (f.Do w exec rctx).events) ∧
    (∀ key ok, Event.formFile key ok ∉ (f.Do w exec rctx).events) ∧
    noExecutor (f.Do w exec rctx).events = true := by
  have hev := Do_of_oversize f w exec rctx hsize
  refine ⟨?_, hev, ?_, ?_, ?_⟩
  · unfold MultipartForm.maxUploadSize
    norm_num
  · intro name
    simp [hev]
  · intro key ok
    simp [hev]
  · simp [hev, Event.isExecutor]

/-- Witness of `MultipartForm_Do_rejects_oversize`: 33554433 declared bytes against the
default ceiling. -/
theorem MultipartForm_Do_rejects_oversize_witness :
    (formRequest 33554433).contentLength > (MultipartForm.mk 0 0).maxUploadSize ∧
    ((MultipartForm.mk 0 0).Do (okWorld [("0", ["variables.file"])]) okExecutor
      (formRequest 33554433)).events =
      [.setHeader "Content-Type" "application/json",
        .write (errorResponse "failed to parse multipart form, request body too large")] :=
  ⟨by decide, (MultipartForm_Do_rejects_oversize (MultipartForm.mk 0 0)
    (okWorld [("0", ["variables.file"])]) okExecutor (formRequest 33554433)
    (by decide)).2.1⟩

/-- C8: a request that declares 33554433 bytes exceeds the default upload ceiling, and
after `Do` the response status is the default 200, neither 400 nor 413: this return is
the one error return of `Do` that sets no status. -/
theorem MultipartForm_Do_oversize_answers_200 :
    (formRequest 33554433).contentLength >
      (MultipartForm.mk 0 0).maxUploadSize ∧
    statusCode oversizedRun.events = 200 ∧
    statusCode oversizedRun.events ≠ 400 ∧
    statusCode oversizedRun.events ≠ 413 := by
  decide

/-- On the return for a request above the upload ceiling `Do` has called `SetStatusCode`
not at all: the status read from the response is still the default, and the one
response written is the rejection error. -/
theorem MultipartForm_Do_oversize_status (f : MultipartForm) (w : World)
    (exec : GraphExecutor) (rctx : RequestCtx)
    (hsize : rctx.contentLength > f.maxUploadSize) :
    (∀ code, Event.setStatusCode code ∉ (f.Do w exec rctx).events) ∧
    statusCode (f.Do w exec rctx).events = 200 ∧
    writes (f.Do w exec rctx).events =
      [errorResponse "failed to parse multipart form, request body too large"] := by
  have hev := Do_of_oversize f w exec rctx hsize
  refine ⟨?_, ?_, ?_⟩
  · intro code
    simp [hev]
  · simp [hev, statusCode, rawStatusCode]
  · simp [hev, writes]

/-- An instance of `MultipartForm_Do_oversize_status`: a ceiling of 50 bytes and 100
declared bytes. -/
theorem MultipartForm_Do_oversize_status_witness :
    (formRequest 100).contentLength > (MultipartForm.mk 50 0).maxUploadSize ∧
    statusCode ((MultipartForm.mk 50 0).Do (okWorld []) okExecutor
      (formRequest 100)).events = 200 :=
  ⟨by decide, (MultipartForm_Do_oversize_status (MultipartForm.mk 50 0) (okWorld [])
    okExecutor (formRequest 100) (by decide)).2.1⟩

/-! ## `GET.Do` -/

theorem GET_Do_variables_fail (h : GET) (decodeObject : String → Option JsonObject)
    (getErrorKind : List GqlError → ErrorKind) (exec : GraphExecutor) (ctx : RequestCtx)
    (hne : peek ctx.queryArgs "variables" ≠ "")
    (hdec : decodeObject (peek ctx.queryArgs "variables") = none) :
    (h.Do decodeObject getErrorKind exec ctx).events =
      [.setHeader "Content-Type" "application/json", .jsonDecode "variables" false,
        .setStatusCode 400, .write (errorResponse "variables could not be decoded")] := by
  simp [GET.Do, GET.decodeVariables, hne, hdec, writeJsonErrorf, writeJsonError, writeJson, SetStatusCode,
    St.log, St.init, errorResponse]

theorem GET_Do_decoded (h : GET) (decodeObject : String → Option JsonObject)
    (getErrorKind : List GqlError → ErrorKind) (exec : GraphExecutor) (ctx : RequestCtx)
    (hv : peek ctx.queryArgs "variables" = "" ∨
      (decodeObject (peek ctx.queryArgs "variables")).isSome = true)
    (he : peek ctx.queryArgs "extensions" = "" ∨
      (decodeObject (peek ctx.queryArgs "extensions")).isSome = true) :
    h.Do decodeObject getErrorKind exec ctx = GET.execute getErrorKind exec
      { events := GET.decodeEvents ctx, defers := [],
        params := GET.rawParams decodeObject ctx } := by
  by_cases hv1 : peek ctx.queryArgs "variables" = ""
  · by_cases he1 : peek ctx.queryArgs "extensions" = ""
    · simp [GET.Do, GET.decodeVariables, GET.decodeExtensions, hv1, he1, GET.rawParams,
        GET.decodeEvents, St.log, St.init]
    · obtain ⟨x, hx⟩ := Option.isSome_iff_exists.mp (he.resolve_left he1)
      simp [GET.Do, GET.decodeVariables, GET.decodeExtensions, hv1, he1, hx, GET.rawParams,
        GET.decodeEvents, St.log, St.init]
  · obtain ⟨v, hvx⟩ := Option.isSome_iff_exists.mp (hv.resolve_left hv1)
    by_cases he1 : peek ctx.queryArgs "extensions" = ""
    · simp [GET.Do, GET.decodeVariables, GET.decodeExtensions, hv1, he1, hvx, GET.rawParams,
        GET.decodeEvents, St.log, St.init]
    · obtain ⟨x, hx⟩ := Option.isSome_iff_exists.mp (he.resolve_left he1)
      simp [GET.Do, GET.decodeVariables, GET.decodeExtensions, hv1, he1, hvx, hx,
        GET.rawParams, GET.decodeEvents, St.log, St.init]

theorem GET_Do_extensions_fail (h : GET) (decodeObject : String → Option JsonObject)
    (getErrorKind : List GqlError → ErrorKind) (exec : GraphExecutor) (ctx : RequestCtx)
    (hv : peek ctx.queryArgs "variables" = "" ∨
      (decodeObject (peek ctx.queryArgs "variables")).isSome = true)
    (hne : peek ctx.queryArgs "extensions" ≠ "")
    (hdec : decodeObject (peek ctx.queryArgs "extensions") = none) :
    (h.Do decodeObject getErrorKind exec ctx).events =
      [.setHeader "Content-Type" "application/json"] ++
        (if peek ctx.queryArgs "variables" = "" then []
          else [.jsonDecode "variables" true]) ++
        [.jsonDecode "extensions" false, .setStatusCode 400,
          .write (errorResponse "extensions could not be decoded")] := by
  by_cases hv1 : peek ctx.queryArgs "variables" = ""
  · simp [GET.Do, GET.decodeVariables, GET.decodeExtensions, hv1, hne, hdec, writeJsonErrorf, writeJsonError,
      writeJson, SetStatusCode, St.log, St.init, errorResponse]
  · obtain ⟨v, hvx⟩ := Option.isSome_iff_exists.mp (hv.resolve_left hv1)
    simp [GET.Do, GET.decodeVariables, GET.decodeExtensions, hv1, hvx, hne, hdec,
      writeJsonErrorf, writeJsonError, writeJson, SetStatusCode, St.log, St.init, errorResponse]

theorem GET_execute_events (getErrorKind : List GqlError → ErrorKind)
    (exec : GraphExecutor) (st : St) :
    (GET.execute getErrorKind exec st).events = st.events ++
      match exec.CreateOperationContext st.params with
      | (rc, some err) =>
        [.createOperationContext false, .setStatusCode (statusFor getErrorKind err),
          .dispatchError, .write (exec.DispatchError rc err)]
      | (rc, none) =>
        .createOperationContext true ::
          match OperationList.ForName rc.Operations rc.OperationName with
          | none => [.nilDereference]
          | some op =>
            if op.Operation = ast.Query then
              [.dispatchOperation, .write (exec.DispatchOperation rc)]
            else
              [.setStatusCode 406,
                .write (errorResponse "GET requests only allow query operations")] := by
  unfold GET.execute
  split
  · simp [writeJson, SetStatusCode, St.log]
  · simp only [St.log]
    split
    · simp [St.log]
    · rename_i op _
      by_cases hq : op.Operation = ast.Query <;>
        simp [writeJsonErrorf, writeJsonError, writeJson, SetStatusCode, St.log, errorResponse, hq]

theorem decodeEvents_facts (ctx : RequestCtx) :
    rawStatusCode (GET.decodeEvents ctx) = 0 ∧ writes (GET.decodeEvents ctx) = [] ∧
    noExecutor (GET.decodeEvents ctx) = true ∧
    (∀ code, Event.setStatusCode code ∉ GET.decodeEvents ctx) := by
  unfold GET.decodeEvents
  split_ifs <;> simp [rawStatusCode, writes, Event.isExecutor]

theorem GET_Do_reaches_executor (h : GET) (decodeObject : String → Option JsonObject)
    (getErrorKind : List GqlError → ErrorKind) (exec : GraphExecutor) (ctx : RequestCtx)
    (hctx : Event.createOperationContext true ∈
      (h.Do decodeObject getErrorKind exec ctx).events) :
    (h.Do decodeObject getErrorKind exec ctx).events = GET.decodeEvents ctx ++
      .createOperationContext true ::
        match OperationList.ForName
          (exec.CreateOperationContext (GET.rawParams decodeObject ctx)).1.Operations
          (exec.CreateOperationContext (GET.rawParams decodeObject ctx)).1.OperationName with
        | none => [.nilDereference]
        | some op =>
          if op.Operation = ast.Query then
            [.dispatchOperation, .write (exec.DispatchOperation
              (exec.CreateOperationContext (GET.rawParams decodeObject ctx)).1)]
          else
            [.setStatusCode 406,
              .write (errorResponse "GET requests only allow query operations")] := by
  have hv : peek ctx.queryArgs "variables" = "" ∨
      (decodeObject (peek ctx.queryArgs "variables")).isSome = true := by
    by_cases hv1 : peek ctx.queryArgs "variables" = ""
    · exact Or.inl hv1
    · cases hdec : decodeObject (peek ctx.queryArgs "variables") with
      | none =>
        rw [GET_Do_variables_fail h decodeObject getErrorKind exec ctx hv1 hdec] at hctx
        simp at hctx
      | some v => exact Or.inr rfl
  have he : peek ctx.queryArgs "extensions" = "" ∨
      (decodeObject (peek ctx.queryArgs "extensions")).isSome = true := by
    by_cases he1 : peek ctx.queryArgs "extensions" = ""
    · exact Or.inl he1
    · cases hdec : decodeObject (peek ctx.queryArgs "extensions") with
      | none =>
        rw [GET_Do_extensions_fail h decodeObject getErrorKind exec ctx hv he1 hdec] at hctx
        split_ifs at hctx <;> simp at hctx
      | some v => exact Or.inr rfl
  have hfacts := decodeEvents_facts ctx
  rw [GET_Do_decoded h decodeObject getErrorKind exec ctx hv he, GET_execute_events] at hctx ⊢
  simp only at hctx ⊢
  cases hc : exec.CreateOperationContext (GET.rawParams decodeObject ctx) with
  | mk rc err =>
    cases err with
    | some errs =>
      rw [hc] at hctx
      simp only [List.mem_append, List.mem_cons] at hctx
      rcases hctx with hmem | hmem
      · have := mem_of_noExecutor hfacts.2.2.1 hmem
        simp [Event.isExecutor] at this
      · simp at hmem
    | none => rfl

/-- C9: when `GET.Do` has the executor create an operation context without error and the
operation resolved from it is not a query, the run ends with status 406, writes exactly
one response, the error "GET requests only allow query operations", and never calls
`DispatchOperation`; when the resolved operation is a query, no 406 is set, the status
is not 406, `DispatchOperation` is called and its response is the one written. -/
theorem GET_Do_only_queries (h : GET) (decodeObject : String → Option JsonObject)
    (getErrorKind : List GqlError → ErrorKind) (exec : GraphExecutor) (ctx : RequestCtx)
    (op : OperationDefinition)
    (hctx : Event.createOperationContext true ∈
      (h.Do decodeObject getErrorKind exec ctx).events)
    (hop : OperationList.ForName
      (exec.CreateOperationContext (GET.rawParams decodeObject ctx)).1.Operations
      (exec.CreateOperationContext (GET.rawParams decodeObject ctx)).1.OperationName =
        some op) :
    (op.Operation ≠ ast.Query →
      statusCode (h.Do decodeObject getErrorKind exec ctx).events = 406 ∧
      writes (h.Do decodeObject getErrorKind exec ctx).events =
        [errorResponse "GET requests only allow query operations"] ∧
      Event.dispatchOperation ∉ (h.Do decodeObject getErrorKind exec ctx).events) ∧
    (op.Operation = ast.Query →
      Event.setStatusCode 406 ∉ (h.Do decodeObject getErrorKind exec ctx).events ∧
      statusCode (h.Do decodeObject getErrorKind exec ctx).events ≠ 406 ∧
      Event.dispatchOperation ∈ (h.Do decodeObject getErrorKind exec ctx).events ∧
      writes (h.Do decodeObject getErrorKind exec ctx).events =
        [exec.DispatchOperation
          (exec.CreateOperationContext (GET.rawParams decodeObject ctx)).1]) := by
  have hev := GET_Do_reaches_executor h decodeObject getErrorKind exec ctx hctx
  obtain ⟨hstatus, hwrites, hexec, hset⟩ := decodeEvents_facts ctx
  rw [hop] at hev
  simp only at hev
  have hwr : ∀ l, writes (GET.decodeEvents ctx ++ l) = writes l := by
    intro l
    unfold writes at hwrites ⊢
    rw [List.filterMap_append, hwrites, List.nil_append]
  constructor
  · intro hq
    rw [if_neg hq] at hev
    rw [hev]
    refine ⟨?_, ?_, ?_⟩
    · simp [statusCode]
    · rw [hwr]
      simp [writes]
    · intro hmem
      simp only [List.mem_append, List.mem_cons] at hmem
      rcases hmem with hmem | hmem
      · have := mem_of_noExecutor hexec hmem
        simp [Event.isExecutor] at this
      · simp at hmem
  · intro hq
    rw [if_pos hq] at hev
    rw [hev]
    refine ⟨?_, ?_, ?_, ?_⟩
    · intro hmem
      simp only [List.mem_append, List.mem_cons] at hmem
      rcases hmem with hmem | hmem
      · exact hset 406 hmem
      · simp at hmem
    · simp [statusCode, hstatus]
    · simp
    · rw [hwr]
      simp [writes]

/-- Witness of `GET_Do_only_queries`: `query=mutation` resolved to a mutation. -/
theorem GET_Do_only_queries_witness :
    statusCode (GET.Do {} sampleDecodeObject (fun _ => errcode.KindUser)
      (kindExecutor "mutation") (getRequest [("query", "mutation")])).events = 406 ∧
    writes (GET.Do {} sampleDecodeObject (fun _ => errcode.KindUser)
      (kindExecutor "mutation") (getRequest [("query", "mutation")])).events =
        [errorResponse "GET requests only allow query operations"] ∧
    Event.dispatchOperation ∉ (GET.Do {} sampleDecodeObject (fun _ => errcode.KindUser)
      (kindExecutor "mutation") (getRequest [("query", "mutation")])).events :=
  (GET_Do_only_queries {} sampleDecodeObject (fun _ => errcode.KindUser)
    (kindExecutor "mutation") (getRequest [("query", "mutation")])
    { Operation := "mutation", Name := "" } (by decide) (by decide)).1 (by decide)

theorem statusFor_ne_400 (getErrorKind : List GqlError → ErrorKind) (errs : List GqlError) :
    statusFor getErrorKind errs ≠ 400 := by
  unfold statusFor
  split_ifs <;> decide

theorem GET_execute_new_events (getErrorKind : List GqlError → ErrorKind)
    (exec : GraphExecutor) (st : St) (e : Event)
    (he : e ∈ (GET.execute getErrorKind exec st).events) :
    e ∈ st.events ∨ ((∀ field ok, e ≠ .jsonDecode field ok) ∧ e ≠ .setStatusCode 400) := by
  rw [GET_execute_events] at he
  rcases List.mem_append.mp he with hmem | hmem
  · exact Or.inl hmem
  · right
    have h400 := statusFor_ne_400 getErrorKind
    cases hc : exec.CreateOperationContext st.params with
    | mk rc err =>
      rw [hc] at hmem
      cases err with
      | some errs =>
        simp only [List.mem_cons, List.mem_singleton, List.not_mem_nil, or_false] at hmem
        rcases hmem with rfl | rfl | rfl | rfl <;> simp [h400]
      | none =>
        simp only at hmem
        cases hop : OperationList.ForName rc.Operations rc.OperationName with
        | none =>
          rw [hop] at hmem
          simp only [List.mem_cons, List.mem_singleton, List.not_mem_nil, or_false] at hmem
          rcases hmem with rfl | rfl <;> simp
        | some op =>
          rw [hop] at hmem
          by_cases hq : op.Operation = ast.Query
          · simp only [hq, if_true, List.mem_cons, List.mem_singleton, List.not_mem_nil,
              or_false] at hmem
            rcases hmem with rfl | rfl | rfl <;> simp
          · simp only [hq, if_false, List.mem_cons, List.mem_singleton, List.not_mem_nil,
              or_false] at hmem
            rcases hmem with rfl | rfl | rfl <;> simp

theorem GET_execute_calls_executor (getErrorKind : List GqlError → ErrorKind)
    (exec : GraphExecutor) (st : St) :
    ∃ ok, Event.createOperationContext ok ∈ (GET.execute getErrorKind exec st).events := by
  rw [GET_execute_events]
  cases hc : exec.CreateOperationContext st.params with
  | mk rc err =>
    cases err with
    | some errs => exact ⟨false, by simp⟩
    | none => exact ⟨true, by simp⟩

/-- C10: in `GET.Do`, a non-empty `variables` argument that fails to decode gives status
400 and the single response "variables could not be decoded"; a non-empty `extensions`
argument that fails to decode (with `variables` empty or decodable) gives status 400 and
the single response "extensions could not be decoded"; in both cases no executor method
is called.  An empty (or absent) argument is never decoded and never stops the request:
when the other argument is empty or decodes, no status 400 is set and the executor is
reached. -/
theorem GET_Do_decode_failures (h : GET) (decodeObject : String → Option JsonObject)
    (getErrorKind : List GqlError → ErrorKind) (exec : GraphExecutor) (ctx : RequestCtx) :
    (peek ctx.queryArgs "variables" ≠ "" →
      decodeObject (peek ctx.queryArgs "variables") = none →
      statusCode (h.Do decodeObject getErrorKind exec ctx).events = 400 ∧
      writes (h.Do decodeObject getErrorKind exec ctx).events =
        [errorResponse "variables could not be decoded"] ∧
      noExecutor (h.Do decodeObject getErrorKind exec ctx).events = true) ∧
    ((peek ctx.queryArgs "variables" = "" ∨
        (decodeObject (peek ctx.queryArgs "variables")).isSome = true) →
      peek ctx.queryArgs "extensions" ≠ "" →
      decodeObject (peek ctx.queryArgs "extensions") = none →
      statusCode (h.Do decodeObject getErrorKind exec ctx).events = 400 ∧
      writes (h.Do decodeObject getErrorKind exec ctx).events =
        [errorResponse "extensions could not be decoded"] ∧
      noExecutor (h.Do decodeObject getErrorKind exec ctx).events = true) ∧
    (peek ctx.queryArgs "variables" = "" →
      (∀ ok, Event.jsonDecode "variables" ok ∉
        (h.Do decodeObject getErrorKind exec ctx).events) ∧
      ((peek ctx.queryArgs "extensions" = "" ∨
          (decodeObject (peek ctx.queryArgs "extensions")).isSome = true) →
        Event.setStatusCode 400 ∉ (h.Do decodeObject getErrorKind exec ctx).events ∧
        ∃ ok, Event.createOperationContext ok ∈
          (h.Do decodeObject getErrorKind exec ctx).events)) ∧
    (peek ctx.queryArgs "extensions" = "" →
      (∀ ok, Event.jsonDecode "extensions" ok ∉
        (h.Do decodeObject getErrorKind exec ctx).events) ∧
      ((peek ctx.queryArgs "variables" = "" ∨
          (decodeObject (peek ctx.queryArgs "variables")).isSome = true) →
        Event.setStatusCode 400 ∉ (h.Do decodeObject getErrorKind exec ctx).events ∧
        ∃ ok, Event.createOperationContext ok ∈
          (h.Do decodeObject getErrorKind exec ctx).events)) := by
  have hreach : ∀ (hv : peek ctx.queryArgs "variables" = "" ∨
      (decodeObject (peek ctx.queryArgs "variables")).isSome = true)
      (he : peek ctx.queryArgs "extensions" = "" ∨
      (decodeObject (peek ctx.queryArgs "extensions")).isSome = true),
      Event.setStatusCode 400 ∉ (h.Do decodeObject getErrorKind exec ctx).events ∧
      ∃ ok, Event.createOperationContext ok ∈
        (h.Do decodeObject getErrorKind exec ctx).events := by
    intro hv he
    rw [GET_Do_decoded h decodeObject getErrorKind exec ctx hv he]
    refine ⟨?_, GET_execute_calls_executor _ _ _⟩
    intro hmem
    rcases GET_execute_new_events _ _ _ _ hmem with hpre | hnew
    · exact (decodeEvents_facts ctx).2.2.2 400 hpre
    · exact hnew.2 rfl
  refine ⟨?_, ?_, ?_, ?_⟩
  · intro hne hdec
    rw [GET_Do_variables_fail h decodeObject getErrorKind exec ctx hne hdec]
    simp [statusCode, rawStatusCode, writes, Event.isExecutor]
  · intro hv hne hdec
    rw [GET_Do_extensions_fail h decodeObject getErrorKind exec ctx hv hne hdec]
    split_ifs <;> simp [statusCode, rawStatusCode, writes, Event.isExecutor]
  · intro hv1
    refine ⟨?_, hreach (Or.inl hv1)⟩
    intro ok hmem
    by_cases he1 : peek ctx.queryArgs "extensions" = ""
    · rw [GET_Do_decoded h decodeObject getErrorKind exec ctx (Or.inl hv1) (Or.inl he1)] at hmem
      rcases GET_execute_new_events _ _ _ _ hmem with hpre | hnew
      · simp [GET.decodeEvents, hv1, he1] at hpre
      · exact hnew.1 _ _ rfl
    · cases hdec : decodeObject (peek ctx.queryArgs "extensions") with
      | none =>
        rw [GET_Do_extensions_fail h decodeObject getErrorKind exec ctx (Or.inl hv1) he1
          hdec] at hmem
        simp [hv1] at hmem
      | some x =>
        rw [GET_Do_decoded h decodeObject getErrorKind exec ctx (Or.inl hv1)
          (Or.inr (by rw [hdec]; rfl))] at hmem
        rcases GET_execute_new_events _ _ _ _ hmem with hpre | hnew
        · simp [GET.decodeEvents, hv1, he1] at hpre
        · exact hnew.1 _ _ rfl
  · intro he1
    refine ⟨?_, fun hv => hreach hv (Or.inl he1)⟩
    intro ok hmem
    by_cases hv1 : peek ctx.queryArgs "variables" = ""
    · rw [GET_Do_decoded h decodeObject getErrorKind exec ctx (Or.inl hv1) (Or.inl he1)] at hmem
      rcases GET_execute_new_events _ _ _ _ hmem with hpre | hnew
      · simp [GET.decodeEvents, hv1, he1] at hpre
      · exact hnew.1 _ _ rfl
    · cases hdec : decodeObject (peek ctx.queryArgs "variables") with
      | none =>
        rw [GET_Do_variables_fail h decodeObject getErrorKind exec ctx hv1 hdec] at hmem
        simp at hmem
      | some x =>
        rw [GET_Do_decoded h decodeObject getErrorKind exec ctx
          (Or.inr (by rw [hdec]; rfl)) (Or.inl he1)] at hmem
        rcases GET_execute_new_events _ _ _ _ hmem with hpre | hnew
        · simp [GET.decodeEvents, hv1, he1] at hpre
        · exact hnew.1 _ _ rfl

/-- Witness of `GET_Do_decode_failures`: the request `?query=\x7bname\x7d&variables=notjson`
of the package's test. -/
theorem GET_Do_decode_failures_witness :
    statusCode (GET.Do {} sampleDecodeObject (fun _ => errcode.KindUser) okExecutor
      (getRequest [("query", "\x7bname\x7d"), ("variables", "notjson")])).events = 400 ∧
    writes (GET.Do {} sampleDecodeObject (fun _ => errcode.KindUser) okExecutor
      (getRequest [("query", "\x7bname\x7d"), ("variables", "notjson")])).events =
        [errorResponse "variables could not be decoded"] ∧
    noExecutor (GET.Do {} sampleDecodeObject (fun _ => errcode.KindUser) okExecutor
      (getRequest [("query", "\x7bname\x7d"), ("variables", "notjson")])).events = true :=
  (GET_Do_decode_failures {} sampleDecodeObject (fun _ => errcode.KindUser) okExecutor
    (getRequest [("query", "\x7bname\x7d"), ("variables", "notjson")])).1 (by decide) (by decide)

/-! ## Temporary files -/

@[simp] theorem createdTempFiles_nil : createdTempFiles [] = [] := rfl

@[simp] theorem createdTempFiles_cons (e : Event) (l : List Event) :
    createdTempFiles (e :: l) = e.createdName.toList ++ createdTempFiles l := by
  cases h : e.createdName <;> simp [createdTempFiles, List.filterMap_cons, h]

@[simp] theorem createdTempFiles_append (l l2 : List Event) :
    createdTempFiles (l ++ l2) = createdTempFiles l ++ createdTempFiles l2 := by
  simp [createdTempFiles]

@[simp] theorem pendingRemovals_cons (d : Deferred) (ds : List Deferred) :
    pendingRemovals (d :: ds) = d.removedName.toList ++ pendingRemovals ds := by
  cases h : d.removedName <;> simp [pendingRemovals, List.filterMap_cons, h]

theorem addUploadStep_cleanup (w : World) (upload : Upload) (key path : String) (st : St)
    (h : CleanupInv st) : CleanupInv (finalState (addUploadStep w upload key path st)) := by
  obtain ⟨h1, h2⟩ := h
  unfold addUploadStep
  split <;>
    simp [CleanupInv, finalState, writeJsonGraphqlError, writeJson, SetStatusCode, St.log,
      Event.createdName, Event.isCleanup, h1, h2]

theorem attachBuffered_cleanup (w : World) (fh : FileHeader) (key : String)
    (fileBytes : List Nat) (paths : List String) (st : St) (h : CleanupInv st) :
    CleanupInv (finalState (attachBuffered w fh key fileBytes paths st)) := by
  induction paths generalizing st with
  | nil => simpa [attachBuffered, finalState] using h
  | cons path rest ih =>
    have hstep := addUploadStep_cleanup w (mkUpload (.bytesReader fileBytes) fh) key path st h
    unfold attachBuffered
    cases hres : addUploadStep w (mkUpload (.bytesReader fileBytes) fh) key path st with
    | error st1 => simpa [finalState, hres] using hstep
    | ok st1 =>
      rw [hres] at hstep
      exact ih st1 hstep

theorem attachSpooled_cleanup (w : World) (fh : FileHeader) (key tmpName : String)
    (i : Nat) (paths : List String) (st : St) (h : CleanupInv st) :
    CleanupInv (finalState (attachSpooled w fh key tmpName i paths st)) := by
  induction paths generalizing st i with
  | nil => simpa [attachSpooled, finalState] using h
  | cons path rest ih =>
    obtain ⟨h1, h2⟩ := h
    unfold attachSpooled
    split
    · have hinv : CleanupInv ((st.log (.osOpen tmpName i true)).defer
          (.closeFile (.tmpHandle tmpName i))) := by
        simp [CleanupInv, St.log, St.defer, Event.createdName, Deferred.removedName,
          Event.isCleanup, h1, h2]
      have hstep := addUploadStep_cleanup w (mkUpload (.tmpHandle tmpName i) fh) key path _ hinv
      cases hres : addUploadStep w (mkUpload (.tmpHandle tmpName i) fh) key path
          ((st.log (.osOpen tmpName i true)).defer (.closeFile (.tmpHandle tmpName i))) with
      | error st1 => simpa [finalState, hres] using hstep
      | ok st1 =>
        rw [hres] at hstep
        simpa [hres] using ih (i + 1) st1 hstep
    · simp [CleanupInv, finalState, writeJsonErrorf, writeJsonError, writeJson, SetStatusCode, St.log,
        Event.createdName, Event.isCleanup, h1, h2]

theorem spoolKey_cleanup (w : World) (fh : FileHeader) (key : String) (paths : List String)
    (st : St) (h : CleanupInv st) : CleanupInv (finalState (spoolKey w fh key paths st)) := by
  obtain ⟨h1, h2⟩ := h
  unfold spoolKey
  split
  · simp [CleanupInv, finalState, writeJsonErrorf, writeJsonError, writeJson, SetStatusCode, St.log,
      Event.createdName, Event.isCleanup, h1, h2]
  · split
    · split
      · apply attachSpooled_cleanup
        simp [CleanupInv, St.log, St.defer, Event.createdName, Deferred.removedName,
          Event.isCleanup, h1, h2]
      · simp [CleanupInv, finalState, writeJsonErrorf, writeJsonError, writeJson, SetStatusCode, St.log,
          St.defer, Event.createdName, Deferred.removedName, Event.isCleanup, h1, h2]
    · split <;>
        simp [CleanupInv, finalState, writeJsonErrorf, writeJsonError, writeJson, SetStatusCode, St.log,
          St.defer, Event.createdName, Deferred.removedName, Event.isCleanup, h1, h2]

theorem processKey_cleanup (f : MultipartForm) (w : World) (rctx : RequestCtx)
    (key : String) (paths : List String) (st : St) (h : CleanupInv st) :
    CleanupInv (finalState (processKey f w rctx key paths st)) := by
  obtain ⟨h1, h2⟩ := h
  unfold processKey
  split
  · simp [CleanupInv, finalState, writeJsonErrorf, writeJsonError, writeJson, SetStatusCode, St.log,
      Event.createdName, Event.isCleanup, h1, h2]
  · split
    · simp [CleanupInv, finalState, writeJsonErrorf, writeJsonError, writeJson, SetStatusCode, St.log,
        Event.createdName, Event.isCleanup, h1, h2]
    · split
      · have hinv : CleanupInv (((st.log (.formFile key true)).log (.fhOpen key true)).defer
            (.closeFile (.formFile key))) := by
          simp [CleanupInv, St.log, St.defer, Event.createdName, Deferred.removedName,
            Event.isCleanup, h1, h2]
        split
        · exact addUploadStep_cleanup _ _ _ _ _ hinv
        · split
          · split
            · simp [CleanupInv, finalState, writeJsonErrorf, writeJsonError, writeJson, SetStatusCode, St.log,
                St.defer, Event.createdName, Deferred.removedName, Event.isCleanup, h1, h2]
            · apply attachBuffered_cleanup
              simp [CleanupInv, St.log, St.defer, Event.createdName, Deferred.removedName,
                Event.isCleanup, h1, h2]
          · exact spoolKey_cleanup _ _ _ _ _ hinv
      · simp [CleanupInv, finalState, writeJsonErrorf, writeJsonError, writeJson, SetStatusCode, St.log,
          Event.createdName, Event.isCleanup, h1, h2]

theorem rangeUploads_cleanup (f : MultipartForm) (w : World) (rctx : RequestCtx)
    (m : List (String × List String)) (st : St) (h : CleanupInv st) :
    CleanupInv (finalState (rangeUploads f w rctx m st)) := by
  induction m generalizing st with
  | nil => simpa [rangeUploads, finalState] using h
  | cons kp rest ih =>
    obtain ⟨key, paths⟩ := kp
    have hstep := processKey_cleanup f w rctx key paths st h
    unfold rangeUploads
    cases hres : processKey f w rctx key paths st with
    | error st1 => simpa [finalState, hres] using hstep
    | ok st1 =>
      rw [hres] at hstep
      exact ih st1 hstep

theorem execute_cleanup (w : World) (exec : GraphExecutor) (st : St) (h : CleanupInv st) :
    CleanupInv (MultipartForm.execute w exec st) := by
  obtain ⟨h1, h2⟩ := h
  unfold MultipartForm.execute
  split <;>
    simp [CleanupInv, writeJson, SetStatusCode, St.log, Event.createdName, Event.isCleanup,
      h1, h2]

theorem body_cleanup (f : MultipartForm) (w : World) (exec : GraphExecutor)
    (rctx : RequestCtx) : CleanupInv (finalState (MultipartForm.body f w exec rctx)) := by
  by_cases hsize : rctx.contentLength > f.maxUploadSize
  · rw [body_of_oversize f w exec rctx hsize]
    simp [CleanupInv, finalState, writeJsonErrorf, writeJsonError, writeJson, St.log, St.init, pendingRemovals,
      Event.createdName, Event.isCleanup]
  · have hle : rctx.contentLength ≤ f.maxUploadSize := not_lt.mp hsize
    cases hp : w.decodeParams (w.FormValue "operations") with
    | none =>
      simp [MultipartForm.body, hsize, hp, CleanupInv, finalState, writeJsonErrorf, writeJsonError, writeJson,
        SetStatusCode, St.log, St.init, pendingRemovals, Event.createdName, Event.isCleanup]
    | some params =>
      cases hm : w.unmarshalMap (w.FormValue "map") with
      | none =>
        simp [MultipartForm.body, hsize, hp, hm, CleanupInv, finalState, writeJsonErrorf, writeJsonError,
          writeJson, SetStatusCode, St.log, St.init, pendingRemovals, Event.createdName,
          Event.isCleanup]
      | some m =>
        rw [body_of_decoded f w exec rctx hle params m hp hm]
        have hstart : CleanupInv (loopStart params) := by
          simp [CleanupInv, loopStart, pendingRemovals, Event.createdName, Event.isCleanup]
        have hloop := rangeUploads_cleanup f w rctx m _ hstart
        cases hres : rangeUploads f w rctx m (loopStart params) with
        | error st3 =>
          rw [hres] at hloop
          exact hloop
        | ok st3 =>
          rw [hres] at hloop
          exact execute_cleanup w exec st3 hloop

theorem removedFiles_deferred (ds : List Deferred) :
    removedFiles (ds.map Deferred.event) = pendingRemovals ds := by
  induction ds with
  | nil => rfl
  | cons d rest ih =>
    cases d <;>
      simp [removedFiles, pendingRemovals, Deferred.event, Event.removedName,
        Deferred.removedName, List.filterMap_cons] at ih ⊢ <;> exact ih

theorem deferred_event_isCleanup (ds : List Deferred) :
    ∀ e ∈ ds.map Deferred.event, e.isCleanup = true := by
  intro e he
  obtain ⟨d, _, rfl⟩ := List.mem_map.mp he
  cases d <;> rfl

theorem mem_createdTempFiles {l : List Event} {key name : String}
    (h : Event.tempFile key (some name) ∈ l) : name ∈ createdTempFiles l :=
  List.mem_filterMap.mpr ⟨_, h, rfl⟩

theorem mem_of_mem_removedFiles {l : List Event} {name : String}
    (h : name ∈ removedFiles l) : Event.remove name ∈ l := by
  obtain ⟨e, he, hname⟩ := List.mem_filterMap.mp h
  cases e <;> simp [Event.removedName] at hname
  subst hname
  exact he

/-- C6: in every run of `MultipartForm.Do` the log splits into the effects of the body
followed by the deferred calls: the first part holds every write and every executor
call and no `Close` or `os.Remove`, the second part holds only `Close` and `os.Remove`
calls, and the names it removes are exactly the temporary files created in the first
part (latest first).  So every temporary file `Do` created is removed before `Do`
returns, on every exit path, and only after the response was produced and written. -/
theorem MultipartForm_Do_removes_temp_files (f : MultipartForm) (w : World)
    (exec : GraphExecutor) (rctx : RequestCtx) :
    (∀ key name, Event.tempFile key (some name) ∈ (f.Do w exec rctx).events →
      Event.remove name ∈ (f.Do w exec rctx).events) ∧
    ∃ pre post, (f.Do w exec rctx).events = pre ++ post ∧
      noCleanup pre = true ∧ (∀ e ∈ post, e.isCleanup = true) ∧
      removedFiles post = (createdTempFiles pre).reverse := by
  obtain ⟨hpending, hnone⟩ := body_cleanup f w exec rctx
  have hsplit : (f.Do w exec rctx).events =
      (finalState (MultipartForm.body f w exec rctx)).events ++
        (finalState (MultipartForm.body f w exec rctx)).defers.map Deferred.event := by
    rw [Do_eq_runDefers]
    rfl
  have hremoved := removedFiles_deferred (finalState (MultipartForm.body f w exec rctx)).defers
  have hpost := deferred_event_isCleanup (finalState (MultipartForm.body f w exec rctx)).defers
  refine ⟨?_, _, _, hsplit, hnone, hpost, by rw [hremoved, hpending]⟩
  intro key name hmem
  rw [hsplit] at hmem ⊢
  rcases List.mem_append.mp hmem with hpre | hpostmem
  · apply List.mem_append_right
    apply mem_of_mem_removedFiles
    rw [hremoved, hpending, List.mem_reverse]
    exact mem_createdTempFiles hpre
  · have := hpost _ hpostmem
    simp [Event.isCleanup] at this

/-- Witness of `MultipartForm_Do_removes_temp_files`: a key with two paths on a request
above the memory limit is spooled to `gqlgen-0`, which is removed. -/
theorem MultipartForm_Do_removes_temp_files_witness :
    Event.remove "gqlgen-0" ∈ (smallMemoryForm.Do
      (okWorld [("0", ["variables.a", "variables.b"])]) okExecutor (formRequest 100)).events :=
  (MultipartForm_Do_removes_temp_files smallMemoryForm
    (okWorld [("0", ["variables.a", "variables.b"])]) okExecutor (formRequest 100)).1
    "0" "gqlgen-0" (by decide)

/-! ## The storage strategy -/

theorem addUploadStep_ok_events (w : World) (upload : Upload) (key path : String)
    (st st1 : St) (h : addUploadStep w upload key path st = .ok st1) :
    st1.events = st.events ++ [.addUpload upload key path true] := by
  unfold addUploadStep at h
  split at h
  · cases h
  · cases h
    rfl

theorem attachBuffered_ok_events (w : World) (fh : FileHeader) (key : String)
    (fileBytes : List Nat) (paths : List String) (st st1 : St)
    (h : attachBuffered w fh key fileBytes paths st = .ok st1) :
    st1.events = st.events ++ paths.map (fun path =>
      .addUpload (mkUpload (.bytesReader fileBytes) fh) key path true) := by
  induction paths generalizing st with
  | nil =>
    simp only [attachBuffered] at h
    cases h
    simp
  | cons path rest ih =>
    unfold attachBuffered at h
    cases hres : addUploadStep w (mkUpload (.bytesReader fileBytes) fh) key path st with
    | error st2 => simp [hres] at h
    | ok st2 =>
      rw [hres] at h
      rw [ih st2 h, addUploadStep_ok_events _ _ _ _ _ _ hres]
      simp

theorem attachSpooled_ok_events (w : World) (fh : FileHeader) (key tmpName : String)
    (i : Nat) (paths : List String) (st st1 : St)
    (h : attachSpooled w fh key tmpName i paths st = .ok st1) :
    st1.events = st.events ++ spoolAttachTrace fh key tmpName i paths := by
  induction paths generalizing st i with
  | nil =>
    simp only [attachSpooled] at h
    cases h
    simp [spoolAttachTrace]
  | cons path rest ih =>
    unfold attachSpooled at h
    split at h
    · cases hres : addUploadStep w (mkUpload (.tmpHandle tmpName i) fh) key path
          ((st.log (.osOpen tmpName i true)).defer (.closeFile (.tmpHandle tmpName i))) with
      | error st2 => simp [hres] at h
      | ok st2 =>
        simp only [hres] at h
        rw [ih (i + 1) st2 h, addUploadStep_ok_events _ _ _ _ _ _ hres]
        simp [spoolAttachTrace, mkUpload, St.log, St.defer]
    · cases h

theorem spoolKey_ok_events (w : World) (fh : FileHeader) (key : String)
    (paths : List String) (st st1 : St) (h : spoolKey w fh key paths st = .ok st1) :
    ∃ tmpName, w.TempFile key = some tmpName ∧
      st1.events = st.events ++
        ([.tempFile key (some tmpName), .copy tmpName true, .closeTmp tmpName true] ++
          spoolAttachTrace fh key tmpName 0 paths) := by
  unfold spoolKey at h
  split at h
  · cases h
  · rename_i tmpName htmp
    refine ⟨tmpName, htmp, ?_⟩
    split at h
    · split at h
      · rw [attachSpooled_ok_events _ _ _ _ _ _ _ _ h]
        simp [St.log, St.defer]
      · cases h
    · split at h <;> cases h

theorem processKey_ok_events (f : MultipartForm) (w : World) (rctx : RequestCtx)
    (key : String) (paths : List String) (st st1 : St)
    (h : processKey f w rctx key paths st = .ok st1) :
    st1.events = st.events ++ keyTrace f w rctx key paths := by
  unfold processKey at h
  split at h
  · cases h
  · rename_i hlen
    split at h
    · cases h
    · rename_i fh hfh
      split at h
      · split at h
        · rw [addUploadStep_ok_events _ _ _ _ _ _ h]
          simp [keyTrace, hfh, storageFor, mkUpload, St.log, St.defer]
        · rename_i hnot1
          have hcount : paths.length ≠ 1 := by
            intro h1
            obtain ⟨path, hpath⟩ := List.length_eq_one.mp h1
            exact hnot1 path hpath
          split at h
          · rename_i hlt
            split at h
            · cases h
            · rename_i fileBytes hread
              rw [attachBuffered_ok_events _ _ _ _ _ _ _ h]
              simp [keyTrace, hfh, storageFor, hcount, hlt, hread, mkUpload, St.log, St.defer]
          · rename_i hge
            obtain ⟨tmpName, htmp, hev⟩ := spoolKey_ok_events _ _ _ _ _ _ h
            rw [hev]
            simp [keyTrace, hfh, storageFor, hcount, hge, htmp, St.log, St.defer]
      · cases h

theorem rangeUploads_ok_events (f : MultipartForm) (w : World) (rctx : RequestCtx)
    (m : List (String × List String)) (st st1 : St)
    (h : rangeUploads f w rctx m st = .ok st1) :
    st1.events = st.events ++ uploadTrace f w rctx m := by
  induction m generalizing st with
  | nil =>
    simp only [rangeUploads] at h
    cases h
    simp [uploadTrace]
  | cons kp rest ih =>
    obtain ⟨key, paths⟩ := kp
    unfold rangeUploads at h
    cases hres : processKey f w rctx key paths st with
    | error st2 => simp [hres] at h
    | ok st2 =>
      rw [hres] at h
      rw [ih st2 h, processKey_ok_events f w rctx key paths st st2 hres]
      simp [uploadTrace]

theorem execute_events (w : World) (exec : GraphExecutor) (st : St) :
    ∃ tail, (MultipartForm.execute w exec st).events = st.events ++ tail ∧
      (MultipartForm.execute w exec st).defers = st.defers ∧
      ∀ e ∈ tail, e.isUpload = false := by
  unfold MultipartForm.execute
  split
  · rename_i rc gerr _
    refine ⟨[.createOperationContext false, .dispatchError,
      .setStatusCode (statusFor w.getErrorKind gerr), .write (exec.DispatchError rc gerr)],
      by simp [writeJson, SetStatusCode, St.log], by simp [writeJson, SetStatusCode, St.log], ?_⟩
    intro e he
    simp only [List.mem_cons, List.mem_singleton, List.not_mem_nil, or_false] at he
    rcases he with rfl | rfl | rfl | rfl <;> rfl
  · rename_i rc _
    refine ⟨[.createOperationContext true, .dispatchOperation,
      .write (exec.DispatchOperation rc)],
      by simp [writeJson, St.log], by simp [writeJson, St.log], ?_⟩
    intro e he
    simp only [List.mem_cons, List.mem_singleton, List.not_mem_nil, or_false] at he
    rcases he with rfl | rfl | rfl <;> rfl

theorem deferred_event_not_upload (ds : List Deferred) :
    ∀ e ∈ ds.map Deferred.event, e.isUpload = false := by
  intro e he
  obtain ⟨d, _, rfl⟩ := List.mem_map.mp he
  cases d <;> rfl

@[simp] theorem attachments_nil : attachments [] = [] := rfl

@[simp] theorem attachments_cons (e : Event) (l : List Event) :
    attachments (e :: l) =
      (match e with
        | .addUpload upload key path true => [(upload, key, path)]
        | _ => []) ++ attachments l := by
  unfold attachments
  rw [List.filterMap_cons]
  split <;> rename_i h <;> split at h <;> simp_all

@[simp] theorem attachments_append (l l2 : List Event) :
    attachments (l ++ l2) = attachments l ++ attachments l2 := by
  simp [attachments]

theorem attachments_map_addUpload (upload : Upload) (key : String) (paths : List String) :
    attachments (paths.map (fun path => Event.addUpload upload key path true)) =
      paths.map (fun path => (upload, key, path)) := by
  induction paths with
  | nil => rfl
  | cons path rest ih => simp [ih]

theorem attachments_spoolAttachTrace (fh : FileHeader) (key tmpName : String) (i : Nat)
    (paths : List String) :
    (attachments (spoolAttachTrace fh key tmpName i paths)).map
        (fun a => (a.1.Size, a.1.Filename, a.1.ContentType, a.2.1, a.2.2)) =
      paths.map (fun path =>
        (fh.Size, fh.Filename, peek fh.Header "Content-Type", key, path)) ∧
    (attachments (spoolAttachTrace fh key tmpName i paths)).map (fun a => a.1.File) =
      (List.range' i paths.length).map (UploadFile.tmpHandle tmpName) := by
  induction paths generalizing i with
  | nil => simp [spoolAttachTrace]
  | cons path rest ih =>
    obtain ⟨ih1, ih2⟩ := ih (i + 1)
    simp [spoolAttachTrace, ih1, ih2, List.range'_succ]

/-- What the attachments of a key's trace are, when the key's loop body completes. -/
theorem processKey_ok_attachments (f : MultipartForm) (w : World) (rctx : RequestCtx)
    (key : String) (paths : List String) (st st1 : St)
    (h : processKey f w rctx key paths st = .ok st1) :
    ∃ fh, w.FormFile key = some fh ∧
      (attachments (keyTrace f w rctx key paths)).map
          (fun a => (a.1.Size, a.1.Filename, a.1.ContentType, a.2.1, a.2.2)) =
        paths.map (fun path =>
          (fh.Size, fh.Filename, peek fh.Header "Content-Type", key, path)) ∧
      match storageFor paths.length rctx.contentLength f.maxMemory with
      | .direct =>
        (attachments (keyTrace f w rctx key paths)).map (fun a => a.1.File) =
          paths.map (fun _ => UploadFile.formFile key)
      | .memory =>
        ∃ fileBytes, w.ReadAll key = some fileBytes ∧
          (attachments (keyTrace f w rctx key paths)).map (fun a => a.1.File) =
            paths.map (fun _ => UploadFile.bytesReader fileBytes)
      | .spool =>
        ∃ tmpName, w.TempFile key = some tmpName ∧
          (attachments (keyTrace f w rctx key paths)).map (fun a => a.1.File) =
            (List.range' 0 paths.length).map (UploadFile.tmpHandle tmpName) := by
  unfold processKey at h
  split at h
  · cases h
  · split at h
    · cases h
    · rename_i fh hfh
      refine ⟨fh, hfh, ?_⟩
      split at h
      · split at h
        · simp [keyTrace, hfh, storageFor]
        · rename_i hnot1
          have hcount : paths.length ≠ 1 := by
            intro h1
            obtain ⟨path, hpath⟩ := List.length_eq_one.mp h1
            exact hnot1 path hpath
          split at h
          · rename_i hlt
            split at h
            · cases h
            · rename_i fileBytes hread
              simp [keyTrace, hfh, storageFor, hcount, hlt, hread, attachments_map_addUpload,
                Function.comp_def]
          · rename_i hge
            obtain ⟨tmpName, htmp, _⟩ := spoolKey_ok_events _ _ _ _ _ _ h
            obtain ⟨hproj, hfiles⟩ := attachments_spoolAttachTrace fh key tmpName 0 paths
            simp [keyTrace, hfh, storageFor, hcount, hge, htmp, hproj, hfiles]
      · cases h

/-- C5: (1) whenever the loop body of `MultipartForm.Do` completes for a key, the effects
it added are exactly `keyTrace`: the lookup and open of the form file followed by what
`storageFor` (a function of the number of paths and of content length against
`maxMemory()` alone) prescribes: with one path the opened file attached directly and
nothing read or spooled, with several paths one `ReadAll` below the threshold and else
one temporary file.  The uploads attached are one per path, in path order, each with
the key, the path and the form file's `Size`, `Filename` and `Content-Type`; their
`File` is the opened form file (one path), a reader over the bytes that the single
`ReadAll` returned for every path (buffered), or the handle of the i-th reopen of the
key's one temporary file for the i-th path (spooled).  (2) In a run of `Do` that reaches
the executor, the log is the decode prefix, then `keyTrace` of every map key in visiting
order, then effects that are no upload effects. -/
theorem MultipartForm_Do_storage_strategy (f : MultipartForm) (w : World)
    (exec : GraphExecutor) (rctx : RequestCtx) :
    (∀ key paths st st1, processKey f w rctx key paths st = .ok st1 →
      st1.events = st.events ++ keyTrace f w rctx key paths ∧
      attachments st1.events = attachments st.events ++
        attachments (keyTrace f w rctx key paths) ∧
      ∃ fh, w.FormFile key = some fh ∧
        (attachments (keyTrace f w rctx key paths)).map
            (fun a => (a.1.Size, a.1.Filename, a.1.ContentType, a.2.1, a.2.2)) =
          paths.map (fun path =>
            (fh.Size, fh.Filename, peek fh.Header "Content-Type", key, path)) ∧
        match storageFor paths.length rctx.contentLength f.maxMemory with
        | .direct =>
          (attachments (keyTrace f w rctx key paths)).map (fun a => a.1.File) =
            paths.map (fun _ => UploadFile.formFile key)
        | .memory =>
          ∃ fileBytes, w.ReadAll key = some fileBytes ∧
            (attachments (keyTrace f w rctx key paths)).map (fun a => a.1.File) =
              paths.map (fun _ => UploadFile.bytesReader fileBytes)
        | .spool =>
          ∃ tmpName, w.TempFile key = some tmpName ∧
            (attachments (keyTrace f w rctx key paths)).map (fun a => a.1.File) =
              (List.range' 0 paths.length).map (UploadFile.tmpHandle tmpName)) ∧
    (∀ ok, Event.createOperationContext ok ∈ (f.Do w exec rctx).events →
      ∃ params m tail,
        w.decodeParams (w.FormValue "operations") = some params ∧
        w.unmarshalMap (w.FormValue "map") = some m ∧
        (f.Do w exec rctx).events =
          (loopStart params).events ++ uploadTrace f w rctx m ++ tail ∧
        ∀ e ∈ tail, e.isUpload = false) := by
  refine ⟨fun key paths st st1 h =>
    ⟨processKey_ok_events f w rctx key paths st st1 h,
      by rw [processKey_ok_events f w rctx key paths st st1 h, attachments_append],
      processKey_ok_attachments f w rctx key paths st st1 h⟩, ?_⟩
  intro ok hmem
  by_cases hsize : rctx.contentLength > f.maxUploadSize
  · rw [Do_of_oversize f w exec rctx hsize] at hmem
    simp at hmem
  · have hle : rctx.contentLength ≤ f.maxUploadSize := not_lt.mp hsize
    have hout := body_outcome f w exec rctx hle
    rw [Do_eq_runDefers] at hmem ⊢
    cases hbody : MultipartForm.body f w exec rctx with
    | error st =>
      rw [hbody] at hout hmem
      exfalso
      have hexec : noExecutor st.runDefers.events = true := by
        rw [noExecutor_runDefers]; exact hout.2
      simpa [finalState, Event.isExecutor] using mem_of_noExecutor hexec hmem
    | ok st =>
      cases hp : w.decodeParams (w.FormValue "operations") with
      | none =>
        simp [MultipartForm.body, hsize, hp] at hbody
      | some params =>
        cases hm : w.unmarshalMap (w.FormValue "map") with
        | none =>
          simp [MultipartForm.body, hsize, hp, hm] at hbody
        | some m =>
          rw [body_of_decoded f w exec rctx hle params m hp hm] at hbody
          cases hres : rangeUploads f w rctx m (loopStart params) with
          | error st3 => simp [hres] at hbody
          | ok st3 =>
            rw [hres] at hbody
            simp only [Except.ok.injEq] at hbody
            subst hbody
            obtain ⟨tail, hev, hdef, htail⟩ := execute_events w exec st3
            refine ⟨params, m, tail ++ (MultipartForm.execute w exec st3).defers.map
              Deferred.event, rfl, rfl, ?_, ?_⟩
            · simp only [finalState, St.runDefers, hev,
                rangeUploads_ok_events f w rctx m _ _ hres, List.append_assoc]
            · intro e he
              rcases List.mem_append.mp he with h1 | h2
              · exact htail e h1
              · exact deferred_event_not_upload _ e h2

/-- Witness of `MultipartForm_Do_storage_strategy`: with a memory limit of 10 bytes and
100 declared bytes, the key `0` with two paths is spooled to one temporary file that is
reopened once per path; and the run on that map reaches the executor. -/
theorem MultipartForm_Do_storage_strategy_witness :
    (finalState (processKey smallMemoryForm (okWorld []) (formRequest 100) "0"
        ["variables.a", "variables.b"] St.init)).events =
      St.init.events ++
        keyTrace smallMemoryForm (okWorld []) (formRequest 100) "0"
          ["variables.a", "variables.b"] ∧
    keyTrace smallMemoryForm (okWorld []) (formRequest 100) "0"
        ["variables.a", "variables.b"] =
      [.formFile "0" true, .fhOpen "0" true, .tempFile "0" (some "gqlgen-0"),
        .copy "gqlgen-0" true, .closeTmp "gqlgen-0" true,
        .osOpen "gqlgen-0" 0 true,
        .addUpload
          { File := .tmpHandle "gqlgen-0" 0, Size := 12, Filename := "0.txt",
            ContentType := "text/plain" } "0" "variables.a" true,
        .osOpen "gqlgen-0" 1 true,
        .addUpload
          { File := .tmpHandle "gqlgen-0" 1, Size := 12, Filename := "0.txt",
            ContentType := "text/plain" } "0" "variables.b" true] ∧
    ∃ params m tail,
      (okWorld [("0", ["variables.a", "variables.b"])]).decodeParams
        ((okWorld [("0", ["variables.a", "variables.b"])]).FormValue "operations") =
          some params ∧
      (okWorld [("0", ["variables.a", "variables.b"])]).unmarshalMap
        ((okWorld [("0", ["variables.a", "variables.b"])]).FormValue "map") = some m ∧
      (smallMemoryForm.Do (okWorld [("0", ["variables.a", "variables.b"])]) okExecutor
        (formRequest 100)).events =
        (loopStart params).events ++ uploadTrace smallMemoryForm
          (okWorld [("0", ["variables.a", "variables.b"])]) (formRequest 100) m ++ tail ∧
      ∀ e ∈ tail, e.isUpload = false :=
  ⟨((MultipartForm_Do_storage_strategy smallMemoryForm (okWorld []) okExecutor
      (formRequest 100)).1 "0" ["variables.a", "variables.b"] St.init _ rfl).1,
    by decide,
    (MultipartForm_Do_storage_strategy smallMemoryForm
      (okWorld [("0", ["variables.a", "variables.b"])]) okExecutor (formRequest 100)).2 true
      (by decide)⟩

/-! ## `statusFor` -/

/-- C11: `statusFor` depends on an error list through its error kind alone: it returns
422 exactly when `errcode.GetErrorKind` of the list is `KindProtocol`, 200 exactly when
the kind is anything else, never a third status, and two lists of the same kind get the
same status. -/
theorem statusFor_by_kind (getErrorKind : List GqlError → ErrorKind)
    (errs : List GqlError) :
    (statusFor getErrorKind errs = 422 ↔ getErrorKind errs = errcode.KindProtocol) ∧
    (statusFor getErrorKind errs = 200 ↔ getErrorKind errs ≠ errcode.KindProtocol) ∧
    (statusFor getErrorKind errs = 422 ∨ statusFor getErrorKind errs = 200) ∧
    (∀ errs2, getErrorKind errs2 = getErrorKind errs →
      statusFor getErrorKind errs2 = statusFor getErrorKind errs) := by
  refine ⟨?_, ?_, ?_, ?_⟩
  · unfold statusFor
    by_cases hk : getErrorKind errs = errcode.KindProtocol <;> simp [hk]
  · unfold statusFor
    by_cases hk : getErrorKind errs = errcode.KindProtocol <;> simp [hk]
  · unfold statusFor
    by_cases hk : getErrorKind errs = errcode.KindProtocol <;> simp [hk]
  · intro errs2 hsame
    unfold statusFor
    rw [hsame]

/-- Witness of `statusFor_by_kind`: the parse failure of the package's test is of
protocol kind and gets 422; an error without a code is of user kind and gets 200. -/
theorem statusFor_by_kind_witness :
    statusFor sampleGetErrorKind
      [{ message := "Unexpected !", code := some "GRAPHQL_PARSE_FAILED" }] = 422 ∧
    statusFor sampleGetErrorKind [{ message := "not found", code := none }] = 200 :=
  ⟨(statusFor_by_kind sampleGetErrorKind
      [{ message := "Unexpected !", code := some "GRAPHQL_PARSE_FAILED" }]).1.mpr (by decide),
    (statusFor_by_kind sampleGetErrorKind
      [{ message := "not found", code := none }]).2.1.mpr (by decide)⟩

end Gqlgen
